import Mathlib

/-!
Verification of the Calculator formula engine and constrained optimizer.

This file is a shallow embedding of the Python sources
(`core/model.py`, `core/evaluator.py`, `core/formula_parser.py`,
`core/dependency_graph.py`, `core/compute.py`, `solver/optimizer.py`,
`solver/callbacks.py`) into Lean 4, together with theorems settling the
frozen claims about the program.

Modelling conventions:
* Python floats are modelled as exact rationals (`ℚ`); the claims under
  study are structural (control flow, ordering, tier resolution, exact
  formulas) and do not hinge on rounding.
* Python exceptions become an explicit error type threaded through
  `Except`.  Error messages that the source builds by string formatting
  are modelled structurally: the constructors carry the same data (for
  example the failing cell address) that the source interpolates into
  the message.
* Python `dict`s become association lists with Python's insertion-order
  update semantics (`assocInsert` overwrites in place, appends new keys).
* Character predicates (`str.isalpha`, `str.isdigit`, `str.upper`) are
  modelled on the ASCII fragment, which covers every address and formula
  the engine manipulates.
-/

namespace Calc

/-- Errors raised by the embedded code.  Constructors mirror the Python
exception classes; `FormulaError` instances are the first three.  Where
the source interpolates data into a message string the constructor
carries that data instead. -/
inductive Err where
  | missingValue (cell : String)
  | evalWrapped (inner : Err)
  | cellError (cell : String) (inner : Err)
  | keyError (key : String)
  | valueError (msg : String)
  | typeError (msg : String)
  | zeroDivisionError
  | cycleError (missing : List String)
  deriving Repr, DecidableEq

/-- The `FormulaError` class: raised by the evaluator for a missing cell
value, as the wrapper around any other evaluation exception
(`evalWrapped`), or re-raised by the compute engine with the offending
cell address (`cellError`). -/
def Err.isFormulaError : Err → Bool
  | .missingValue _ => true
  | .evalWrapped _ => true
  | .cellError _ _ => true
  | _ => false

/-- `model.normalize_cell`: drop `$` markers and upper-case. -/
def normalize_cell (cell : String) : String :=
  String.mk ((cell.data.filter (fun c => c ≠ '$')).map Char.toUpper)

/-- `evaluator.letters_to_col`: base-26 column letters to 1-based index,
folding `col * 26 + (ord(ch) - ord('A') + 1)` over the upper-cased
characters. -/
def letters_to_col (letters : String) : Int :=
  letters.data.foldl (fun col c => col * 26 + ((c.toUpper.toNat : Int) - 64)) 0

/-- Character list of `evaluator.col_to_letters`, by the source's loop
`col, rem = divmod(col - 1, 26); letters = chr(65 + rem) + letters`. -/
def colLettersAux (col : Nat) : List Char :=
  if h : col = 0 then []
  else colLettersAux ((col - 1) / 26) ++ [Char.ofNat (65 + (col - 1) % 26)]
decreasing_by
  exact Nat.lt_of_le_of_lt (Nat.div_le_self _ _) (Nat.sub_lt (Nat.pos_of_ne_zero h) Nat.one_pos)

/-- `evaluator.col_to_letters`; a non-positive column yields the empty
string (the source's `while col > 0` loop body never runs). -/
def col_to_letters (col : Int) : String :=
  String.mk (colLettersAux col.toNat)

/-- Integer value of a digit string, as Python `int` on a string of
decimal digits. -/
def digitsToNat (ds : List Char) : Nat :=
  ds.foldl (fun n c => 10 * n + (c.toNat - 48)) 0

/-- `evaluator.split_cell`: collect the alphabetic characters and the
digit characters of the address; `int("")` raises `ValueError` when there
are no digits, otherwise return `(letters_to_col(letters), int(digits))`.
An address with no letters yields column `letters_to_col("") = 0`. -/
def split_cell (cell : String) : Except Err (Int × Nat) :=
  if (cell.data.filter Char.isDigit).isEmpty then
    .error (.valueError "invalid literal for int() with base 10")
  else
    .ok (letters_to_col (String.mk (cell.data.filter Char.isAlpha)),
         digitsToNat (cell.data.filter Char.isDigit))

lemma colLettersAux_zero : colLettersAux 0 = [] := by
  rw [colLettersAux]
  simp

lemma colLettersAux_succ (n : Nat) (h : n ≠ 0) :
    colLettersAux n = colLettersAux ((n - 1) / 26) ++ [Char.ofNat (65 + (n - 1) % 26)] := by
  rw [colLettersAux]
  simp [h]

lemma letterChar_facts : ∀ r : Nat, r < 26 →
    (Char.ofNat (65 + r)).toNat = 65 + r ∧ (Char.ofNat (65 + r)).isAlpha = true ∧
    (Char.ofNat (65 + r)).isDigit = false ∧ (Char.ofNat (65 + r)).toUpper = Char.ofNat (65 + r) := by
  decide

lemma colLettersAux_mem (n : Nat) :
    ∀ c ∈ colLettersAux n, ∃ r : Nat, r < 26 ∧ c = Char.ofNat (65 + r) := by
  induction n using Nat.strong_induction_on with
  | _ n ih =>
    by_cases h : n = 0
    · subst h; rw [colLettersAux_zero]; intro c hc; cases hc
    · rw [colLettersAux_succ n h]
      intro c hc
      rcases List.mem_append.mp hc with hc | hc
      · exact ih ((n - 1) / 26)
          (Nat.lt_of_le_of_lt (Nat.div_le_self _ _) (Nat.sub_lt (Nat.pos_of_ne_zero h) Nat.one_pos))
          c hc
      · rcases List.mem_singleton.mp hc with rfl
        exact ⟨(n - 1) % 26, Nat.mod_lt _ (by norm_num), rfl⟩

lemma letters_to_col_append (l : List Char) (c : Char) :
    letters_to_col (String.mk (l ++ [c])) =
      letters_to_col (String.mk l) * 26 + (((c.toUpper.toNat : Int)) - 64) := by
  simp [letters_to_col, List.foldl_append]

lemma letters_to_col_colLettersAux : ∀ n : Nat,
    letters_to_col (String.mk (colLettersAux n)) = (n : Int) := by
  intro n
  induction n using Nat.strong_induction_on with
  | _ n ih =>
    by_cases h : n = 0
    · subst h; rw [colLettersAux_zero]; rfl
    · rw [colLettersAux_succ n h, letters_to_col_append]
      have hm : (n - 1) / 26 < n :=
        Nat.lt_of_le_of_lt (Nat.div_le_self _ _) (Nat.sub_lt (Nat.pos_of_ne_zero h) Nat.one_pos)
      rw [ih _ hm]
      have hr : (n - 1) % 26 < 26 := Nat.mod_lt _ (by norm_num)
      obtain ⟨ht, _, _, hu⟩ := letterChar_facts ((n - 1) % 26) hr
      rw [hu, ht]
      have hdm : 26 * ((n - 1) / 26) + (n - 1) % 26 = n - 1 := Nat.div_add_mod (n - 1) 26
      have hn1 : 1 ≤ n := Nat.pos_of_ne_zero h
      push_cast
      omega

/-- C8, general form over `Nat` column indices: the letter/column
conversions round-trip through `split_cell`. -/
lemma split_round_trip (n : Nat) :
    split_cell (col_to_letters (n : Int) ++ "1") = .ok ((n : Int), 1) ∧
    letters_to_col (col_to_letters (n : Int)) = (n : Int) := by
  have htn : ((n : Int)).toNat = n := Int.toNat_natCast n
  have hchars : ∀ c ∈ colLettersAux n, c.isAlpha = true ∧ c.isDigit = false := by
    intro c hc
    obtain ⟨r, hr, rfl⟩ := colLettersAux_mem n c hc
    obtain ⟨_, h1, h2, _⟩ := letterChar_facts r hr
    exact ⟨h1, h2⟩
  have hdata : (col_to_letters (n : Int) ++ "1").data = colLettersAux n ++ ['1'] := by
    rw [String.data_append]
    simp only [col_to_letters, htn]
  constructor
  · have hfa : (colLettersAux n ++ ['1']).filter Char.isAlpha = colLettersAux n := by
      rw [List.filter_append]
      have h1 : (colLettersAux n).filter Char.isAlpha = colLettersAux n :=
        List.filter_eq_self.mpr (fun c hc => (hchars c hc).1)
      have h2 : (['1'] : List Char).filter Char.isAlpha = [] := by decide
      rw [h1, h2, List.append_nil]
    have hfd : (colLettersAux n ++ ['1']).filter Char.isDigit = ['1'] := by
      rw [List.filter_append]
      have h1 : (colLettersAux n).filter Char.isDigit = [] :=
        List.filter_eq_nil_iff.mpr (fun c hc => by simp [(hchars c hc).2])
      have h2 : (['1'] : List Char).filter Char.isDigit = ['1'] := by decide
      rw [h1, h2, List.nil_append]
    rw [split_cell, hdata, hfa, hfd]
    have hne : (['1'] : List Char).isEmpty = false := by decide
    rw [hne]
    simp only [Bool.false_eq_true, if_false]
    rw [letters_to_col_colLettersAux n]
    rfl
  · rw [col_to_letters, htn, letters_to_col_colLettersAux n]

/-- C8: for every column index `1 ≤ i ≤ 16384`, splitting the address
`column_to_letters(i) ++ "1"` yields exactly `(i, 1)`, and
`letters_to_col` is a left inverse of `col_to_letters` on this range. -/
theorem split_col_letters_round_trip (i : Int) (h1 : 1 ≤ i) (h2 : i ≤ 16384) :
    split_cell (col_to_letters i ++ "1") = .ok (i, 1) ∧
    letters_to_col (col_to_letters i) = i := by
  have hn : i = ((i.toNat : Nat) : Int) := (Int.toNat_of_nonneg (by omega)).symm
  rw [hn]
  exact split_round_trip i.toNat

/-- C8 witness: the round trip evaluated at the concrete column 703
(letters `AAA`). -/
theorem split_col_letters_round_trip_witness :
    (1 : Int) ≤ 703 ∧ (703 : Int) ≤ 16384 ∧
    (split_cell (col_to_letters 703 ++ "1") = .ok (703, 1) ∧
     letters_to_col (col_to_letters 703) = 703) :=
  ⟨by decide, by decide, split_col_letters_round_trip 703 (by decide) (by decide)⟩

/-- C9 counterexample: the address `"123"` has no letter prefix, yet
`split_cell` does not fail — it returns the pair `(0, 123)`. -/
theorem split_cell_no_letters_counterexample :
    split_cell "123" = .ok (0, 123) := rfl

/-- C9 amended: `split_cell` fails (with the `ValueError` from `int("")`)
exactly when the address has no digit characters; an address with digits
but no alphabetic characters does not fail and instead yields column
index 0. -/
theorem split_cell_failure_amended (s : String) :
    (s.data.any Char.isDigit = false →
      split_cell s = .error (.valueError "invalid literal for int() with base 10")) ∧
    (s.data.any Char.isDigit = true → s.data.any Char.isAlpha = false →
      split_cell s = .ok (0, digitsToNat (s.data.filter Char.isDigit))) := by
  constructor
  · intro h
    rw [split_cell]
    have : (s.data.filter Char.isDigit).isEmpty = true := by
      rw [List.isEmpty_iff, List.filter_eq_nil_iff]
      intro c hc
      simpa using List.any_eq_false.mp h c hc
    simp [this]
  · intro hd ha
    rw [split_cell]
    have h1 : (s.data.filter Char.isDigit).isEmpty = false := by
      rcases List.any_eq_true.mp hd with ⟨c, hc, hcd⟩
      apply Bool.eq_false_iff.mpr
      intro hh
      exact absurd (List.filter_eq_nil_iff.mp (List.isEmpty_iff.mp hh) c hc) (by simp [hcd])
    have h2 : s.data.filter Char.isAlpha = [] :=
      List.filter_eq_nil_iff.mpr (fun c hc => by simpa using List.any_eq_false.mp ha c hc)
    rw [h2]
    simp only [h1, if_false]
    rfl

/-- C9 amended witness: the concrete address `"ABC"` (no digit suffix)
makes `split_cell` fail. -/
theorem split_cell_failure_amended_witness :
    "ABC".data.any Char.isDigit = false ∧
    split_cell "ABC" = .error (.valueError "invalid literal for int() with base 10") :=
  ⟨by decide, (split_cell_failure_amended "ABC").1 (by decide)⟩

/-! ### Formula parser: dependency extraction (`core/formula_parser.py`)

The parser rewrites a formula string with two regex substitution passes
(`RANGE_RE` first, then `CELL_REF_RE` on the rewritten text), recording
the referenced addresses.  The scanners below implement the two regexes
character by character with Python `re.sub` semantics: scan left to
right, try a match at each position, on success continue after the
match, otherwise advance one character.  `[A-Z]{1,3}` is greedy, but
shortening the letter group places an uppercase letter where `\$?\d+`
must match, so a match exists at a position exactly when the maximal
letter run there has length 1 to 3; similarly a digit can never be `$`,
so the optional `$`s need no backtracking. -/

/-- The character class `[A-Z0-9_"]` used by the lookbehind and
lookahead of `CELL_REF_RE`. -/
def isWordLike (c : Char) : Bool :=
  ('A' ≤ c && c ≤ 'Z') || ('0' ≤ c && c ≤ '9') || c = '_' || c = '"'

/-- Python `\s` on the ASCII fragment. -/
def isSpacePy (c : Char) : Bool :=
  c = ' ' || c = '\t' || c = '\n' || c = '\r' || c = Char.ofNat 11 || c = Char.ofNat 12

/-- Match `\$?[A-Z]{1,3}\$?\d+` at the head of the character list,
returning the letter group, the digit group and the rest. -/
def matchCellCore (cs : List Char) : Option (List Char × List Char × List Char) :=
  let cs1 := match cs with | '$' :: t => t | _ => cs
  let letters := cs1.takeWhile Char.isUpper
  if letters.length = 0 || letters.length > 3 then none
  else
    let rest1 := cs1.dropWhile Char.isUpper
    let rest2 := match rest1 with | '$' :: t => t | _ => rest1
    let digits := rest2.takeWhile Char.isDigit
    if digits.isEmpty then none
    else some (letters, digits, rest2.drop digits.length)

/-- Match `RANGE_RE` at the head: two cell tokens joined by `\s*:\s*`.
The returned endpoint names are already in normalized form (the letter
run is uppercase and the `$` markers are not part of the groups kept
here), matching `normalize_cell` applied to the raw groups. -/
def matchRange (cs : List Char) : Option (String × String × List Char) :=
  match matchCellCore cs with
  | none => none
  | some (l1, d1, r1) =>
    match (r1.dropWhile isSpacePy) with
    | ':' :: r2 =>
      match matchCellCore (r2.dropWhile isSpacePy) with
      | none => none
      | some (l2, d2, r3) => some (String.mk (l1 ++ d1), String.mk (l2 ++ d2), r3)
    | _ => none

/-- The replacement text `range_("S", "E")` emitted for a matched range. -/
def rangeReplacement (s e : String) : List Char :=
  ("range_(\"" ++ s ++ "\", \"" ++ e ++ "\")").data

/-- The `RANGE_RE.sub` pass: rewrite the text and collect the endpoint
pairs in match order.  The fuel argument bounds the scan; every step
either consumes the matched characters or advances one character, so
`cs.length + 1` fuel always completes the scan. -/
def rangeSubGo : Nat → List Char → List Char × List (String × String)
  | _, [] => ([], [])
  | 0, cs => (cs, [])
  | fuel + 1, c :: rest =>
    match matchRange (c :: rest) with
    | some (s, e, r) =>
      let next := rangeSubGo fuel r
      (rangeReplacement s e ++ next.1, (s, e) :: next.2)
    | none =>
      let next := rangeSubGo fuel rest
      (c :: next.1, next.2)

/-- The `CELL_REF_RE.sub` pass over the range-rewritten text, collecting
the normalized single-cell tokens.  `prev` is the character before the
current position, for the lookbehind `(?<![A-Z0-9_"])`; the lookahead
checks the character after the digit run. -/
def cellScanGo : Nat → Option Char → List Char → List String
  | _, _, [] => []
  | 0, _, _ => []
  | fuel + 1, prev, c :: rest =>
    let blocked := match prev with | some p => isWordLike p | none => false
    if blocked then cellScanGo fuel (some c) rest
    else
      match matchCellCore (c :: rest) with
      | some (l, d, r) =>
        let aheadOk := match r with | [] => true | x :: _ => !isWordLike x
        if aheadOk then
          String.mk (l ++ d) :: cellScanGo fuel (d.getLastD '0') r
        else cellScanGo fuel (some c) rest
      | none => cellScanGo fuel (some c) rest

/-- The `"<>" → "!="` replacement of `normalize_comparisons`. -/
def replNe : List Char → List Char
  | '<' :: '>' :: rest => '!' :: '=' :: replNe rest
  | c :: rest => c :: replNe rest
  | [] => []

/-- The single `=` → `==` rewrite of `normalize_comparisons`:
`(?<![<>=])=(?![<>=])`, scanning the input with its original
neighbours. -/
def replEq : Option Char → List Char → List Char
  | _, [] => []
  | prev, c :: rest =>
    if c = '=' then
      let behindOk := match prev with
        | some p => !(p = '<' || p = '>' || p = '=')
        | none => true
      let aheadOk := match rest with
        | x :: _ => !(x = '<' || x = '>' || x = '=')
        | [] => true
      if behindOk && aheadOk then '=' :: '=' :: replEq (some '=') rest
      else '=' :: replEq (some '=') rest
    else c :: replEq (some c) rest

/-- `formula_parser.parse_formula`, dependency side: strip the leading
`=` markers, apply the `;`, `^` and comparison rewrites, run the range
substitution, then scan the rewritten text for single-cell tokens.  The
returned list is the parser's dependency set in collection order (range
endpoints first, then single cells); the evaluable expression side of
`ParsedFormula` is embedded separately as `Expr`. -/
def extract_dependencies (formula : String) : List String :=
  let expr0 := formula.data.dropWhile (fun c => c = '=')
  let expr1 := expr0.map (fun c => if c = ';' then ',' else c)
  let expr2 := expr1.foldr (fun c acc => if c = '^' then '*' :: '*' :: acc else c :: acc) []
  let expr3 := replEq none (replNe expr2)
  let ranges := rangeSubGo (expr3.length + 1) expr3
  let cells := cellScanGo (ranges.1.length + 1) none ranges.1
  ranges.2.foldr (fun p acc => p.1 :: p.2 :: acc) cells

/-- `dependency_graph.build_dependency_graph`: normalize every formula
cell address and its extracted dependency set (a Python set, modelled by
`dedup`). -/
def build_dependency_graph (formulas : List (String × String)) : List (String × List String) :=
  formulas.map (fun p => (normalize_cell p.1, ((extract_dependencies p.2).map normalize_cell).dedup))

/-- C7: at the failing input `"=SUM(A1:B2)"` the parser records only the
two range endpoints `A1` and `B2` as dependencies; the interior members
`B1` and `A2` of the rectangular expansion are missing, contradicting
the claim that every expanded member is recorded. -/
theorem range_dependencies_endpoints_only :
    extract_dependencies "=SUM(A1:B2)" = ["A1", "B2"] ∧
    "B1" ∉ extract_dependencies "=SUM(A1:B2)" ∧
    "A2" ∉ extract_dependencies "=SUM(A1:B2)" := by
  refine ⟨rfl, ?_, ?_⟩ <;> decide

/-! ### Dependency graph scheduler (`core/dependency_graph.py`)

A graph is an association list from a cell address to its dependency
list (a Python `dict[str, set[str]]`; the theorems assume distinct keys
and duplicate-free dependency lists, which hold for every dict/set the
source builds).  `topological_sort` is Kahn's algorithm exactly as in
the source: in-degrees are counted only over dependencies that are
themselves graph nodes, zero in-degree nodes seed a FIFO queue, and each
popped node decrements the in-degree of every node that depends on it
(the source's `target in indegree` test is always true because the
in-degree dict holds exactly the graph keys).  The loop runs at most one
iteration per queue entry, and a node enters the queue at most once
(its in-degree passes through zero at most once), so `2 * |graph| + 1`
fuel always suffices to drain the queue. -/

/-- Dependency list of a node (`graph.get(t, empty)`). -/
def depsOf (graph : List (String × List String)) (t : String) : List String :=
  (List.lookup t graph).getD []

/-- The in-graph dependencies of `t`: just those dependencies that are
graph nodes, the only ones Kahn's algorithm counts. -/
def igdeps (graph : List (String × List String)) (t : String) : List String :=
  (depsOf graph t).filter (fun d => (List.lookup d graph).isSome)

/-- One pass of the loop body after popping `n`: decrement the in-degree
of every target whose dependencies contain `n`, and collect (in graph
order) the targets whose in-degree just reached zero. -/
def kahn_pass (graph : List (String × List String)) (indeg : List (String × Int)) (n : String) :
    List (String × Int) × List String :=
  let indeg2 := indeg.map (fun tv => if (depsOf graph tv.1).contains n then (tv.1, tv.2 - 1) else tv)
  (indeg2, (indeg2.filter (fun tv => (depsOf graph tv.1).contains n && tv.2 == 0)).map Prod.fst)

/-- The `while queue` loop of `topological_sort`, with fuel bounding the
iteration count. -/
def kahn_loop (graph : List (String × List String)) :
    Nat → List (String × Int) → List String → List String → List String
  | 0, _, _, ordered => ordered
  | _ + 1, _, [], ordered => ordered
  | fuel + 1, indeg, n :: rest, ordered =>
    let pz := kahn_pass graph indeg n
    kahn_loop graph fuel pz.1 (rest ++ pz.2) (ordered ++ [n])

/-- `dependency_graph.topological_sort`: Kahn's algorithm; raises
`ValueError` listing the sorted unresolved node set when the produced
order is shorter than the node count. -/
def topological_sort (graph : List (String × List String)) : Except Err (List String) :=
  let indeg0 := graph.map (fun p =>
    (p.1, ((p.2.filter (fun d => (List.lookup d graph).isSome)).length : Int)))
  let queue0 := (indeg0.filter (fun tv => tv.2 == 0)).map Prod.fst
  let ordered := kahn_loop graph (2 * graph.length + 1) indeg0 queue0 []
  if ordered.length ≠ graph.length then
    .error (.cycleError
      (((graph.map Prod.fst).filter (fun x => !(ordered.contains x))).mergeSort
        (fun a b => decide (a ≤ b))))
  else .ok ordered

/-- An order respects the graph when, wherever a node occurs, all of its
in-graph dependencies occur strictly before it. -/
def respectsDeps (graph : List (String × List String)) (l : List String) : Prop :=
  ∀ l₁ n l₂, l = l₁ ++ n :: l₂ → ∀ d ∈ igdeps graph n, d ∈ l₁

lemma lookup_map_values {β γ : Type} (g : List (String × β)) (F : String → β → γ) (t : String) :
    List.lookup t (g.map (fun p => (p.1, F p.1 p.2))) = (List.lookup t g).map (F t) := by
  induction g with
  | nil => rfl
  | cons p rest ih =>
    by_cases h : t = p.1
    · subst h
      simp [List.lookup]
    · have hb : (t == p.1) = false := beq_false_of_ne h
      simp [List.lookup, hb, ih]

lemma lookup_isSome_iff {β : Type} (l : List (String × β)) (k : String) :
    (List.lookup k l).isSome = true ↔ k ∈ l.map Prod.fst := by
  induction l with
  | nil => simp [List.lookup]
  | cons p rest ih =>
    by_cases h : k = p.1
    · subst h
      simp [List.lookup]
    · have hb : (k == p.1) = false := beq_false_of_ne h
      simp [List.lookup, hb, ih, h]

lemma lookup_of_mem_nodupKeys {β : Type} {g : List (String × β)} {p : String × β}
    (hnd : (g.map Prod.fst).Nodup) (hp : p ∈ g) : List.lookup p.1 g = some p.2 := by
  induction g with
  | nil => cases hp
  | cons q rest ih =>
    rcases List.mem_cons.mp hp with rfl | hp2
    · simp [List.lookup]
    · have hne : p.1 ≠ q.1 := by
        intro he
        have : q.1 ∈ rest.map Prod.fst := he ▸ List.mem_map_of_mem Prod.fst hp2
        exact (List.nodup_cons.mp (by simpa using hnd)).1 this
      have hb : (p.1 == q.1) = false := beq_false_of_ne hne
      simp only [List.lookup, hb]
      exact ih (List.nodup_cons.mp (by simpa using hnd)).2 hp2

lemma mem_filter_map_fst {l : List (String × Int)} (hnd : (l.map Prod.fst).Nodup)
    (q : String × Int → Bool) (t : String) :
    t ∈ (l.filter q).map Prod.fst ↔ ∃ v, List.lookup t l = some v ∧ q (t, v) = true := by
  induction l with
  | nil => simp [List.lookup]
  | cons p rest ih =>
    have hnd2 : (rest.map Prod.fst).Nodup := (List.nodup_cons.mp (by simpa using hnd)).2
    have hnm : p.1 ∉ rest.map Prod.fst := (List.nodup_cons.mp (by simpa using hnd)).1
    by_cases h : t = p.1
    · subst h
      constructor
      · intro hmem
        rcases List.mem_map.mp hmem with ⟨pv, hpv, hfst⟩
        rcases List.mem_filter.mp hpv with ⟨hpv_mem, hq⟩
        rcases List.mem_cons.mp hpv_mem with rfl | hpv_rest
        · refine ⟨pv.2, by simp [List.lookup], ?_⟩
          rw [← hfst]
          simpa using hq
        · exact absurd (hfst ▸ List.mem_map_of_mem Prod.fst hpv_rest) hnm
      · rintro ⟨v, hv, hq⟩
        have hv2 : v = p.2 := by simpa [List.lookup] using hv.symm
        subst hv2
        refine List.mem_map.mpr ⟨p, List.mem_filter.mpr ⟨List.mem_cons_self p rest, ?_⟩, rfl⟩
        simpa using hq
    · have hb : (t == p.1) = false := beq_false_of_ne h
      have key : t ∈ ((p :: rest).filter q).map Prod.fst ↔ t ∈ (rest.filter q).map Prod.fst := by
        by_cases hq : q p = true
        · simp [List.filter_cons, hq, h]
        · simp [List.filter_cons, hq]
      rw [key]
      simp only [List.lookup, hb]
      exact ih hnd2

lemma contains_eq_decide_mem (L : List String) (d : String) :
    L.contains d = decide (d ∈ L) := by
  by_cases h : d ∈ L
  · simp [h, List.elem_iff]
  · simp only [h, decide_False]
    by_cases hc : L.contains d = true
    · exact absurd (List.elem_iff.mp hc) h
    · simpa using hc

lemma mem_of_lookup_eq_some {β : Type} {l : List (String × β)} {k : String} {v : β}
    (h : List.lookup k l = some v) : (k, v) ∈ l := by
  induction l with
  | nil => cases h
  | cons p rest ih =>
    by_cases he : k = p.1
    · subst he
      have : v = p.2 := by simpa [List.lookup] using h.symm
      subst this
      simp
    · have hb : (k == p.1) = false := beq_false_of_ne he
      simp only [List.lookup, hb] at h
      exact List.mem_cons_of_mem p (ih h)

lemma length_filter_erase_one (l : List String) (hnd : l.Nodup) (p : String → Bool) (n : String)
    (hn : n ∈ l) (hp : p n = true) :
    (l.filter p).length = (l.filter (fun d => p d && !(d == n))).length + 1 := by
  induction l with
  | nil => cases hn
  | cons a rest ih =>
    have hnd2 : rest.Nodup := (List.nodup_cons.mp hnd).2
    have hna : a ∉ rest := (List.nodup_cons.mp hnd).1
    by_cases he : n = a
    · subst he
      have hrest : rest.filter (fun d => p d && !(d == n)) = rest.filter p :=
        List.filter_congr (fun d hd => by
          have : (d == n) = false := beq_false_of_ne (fun hh => hna (hh ▸ hd))
          simp [this])
      simp [List.filter_cons, hp, hrest]
    · have hnr : n ∈ rest := by
        rcases List.mem_cons.mp hn with h | h
        · exact absurd h he
        · exact h
      have hab : (a == n) = false := beq_false_of_ne (fun hh => he (hh.symm))
      by_cases hpa : p a = true
      · simp [List.filter_cons, hpa, hab, ih hnd2 hnr]
      · simp [List.filter_cons, hpa, ih hnd2 hnr]

lemma append_singleton_eq_append_cons {l l₁ l₂ : List String} {m n : String}
    (h : l ++ [n] = l₁ ++ m :: l₂) :
    (l₂ = [] ∧ l₁ = l ∧ m = n) ∨ ∃ l₂', l = l₁ ++ m :: l₂' ∧ l₂ = l₂' ++ [n] := by
  rcases List.eq_nil_or_concat l₂ with rfl | ⟨l₂', x, rfl⟩
  · left
    have h2 := List.append_inj' h (by simp)
    exact ⟨rfl, h2.1.symm, by simpa using h2.2.symm⟩
  · right
    rw [List.concat_eq_append] at h
    have h3 : l ++ [n] = (l₁ ++ m :: l₂') ++ [x] := by simpa using h
    have h2 := List.append_inj' h3 (by simp)
    refine ⟨l₂', h2.1, ?_⟩
    have : n = x := by simpa using h2.2
    rw [List.concat_eq_append, this]

lemma respectsDeps_append (g : List (String × List String)) (l : List String) (n : String)
    (hl : respectsDeps g l) (hn : ∀ d ∈ igdeps g n, d ∈ l) :
    respectsDeps g (l ++ [n]) := by
  intro l₁ m l₂ hsplit d hd
  rcases append_singleton_eq_append_cons hsplit with ⟨rfl, rfl, rfl⟩ | ⟨l₂', hsplit2, rfl⟩
  · exact hn d hd
  · exact hl l₁ m l₂' hsplit2 d hd

lemma igdeps_nodup (g : List (String × List String)) (hdeps : ∀ p ∈ g, p.2.Nodup)
    (t : String) : (igdeps g t).Nodup := by
  rw [igdeps, depsOf]
  cases hl : List.lookup t g with
  | none => simp
  | some v =>
    have hv : v.Nodup := hdeps (t, v) (mem_of_lookup_eq_some hl)
    simpa using hv.filter _

lemma kahn_loop_invariant (g : List (String × List String))
    (hkeys : (g.map Prod.fst).Nodup)
    (hdeps : ∀ p ∈ g, p.2.Nodup) :
    ∀ (fuel : Nat) (indeg : List (String × Int)) (queue ordered : List String),
    indeg.map Prod.fst = g.map Prod.fst →
    (∀ t ∈ g.map Prod.fst, List.lookup t indeg =
        some (((igdeps g t).filter (fun d => !(ordered.contains d))).length : Int)) →
    (ordered ++ queue).Nodup →
    (∀ x ∈ ordered ++ queue, x ∈ g.map Prod.fst) →
    (∀ t ∈ queue, ∀ d ∈ igdeps g t, d ∈ ordered) →
    respectsDeps g ordered →
    respectsDeps g (kahn_loop g fuel indeg queue ordered) ∧
    (kahn_loop g fuel indeg queue ordered).Nodup ∧
    (∀ x ∈ kahn_loop g fuel indeg queue ordered, x ∈ g.map Prod.fst) := by
  intro fuel
  induction fuel with
  | zero =>
    intro indeg queue ordered _ _ h3 h4 _ h6
    exact ⟨h6, (List.nodup_append.mp h3).1, fun x hx => h4 x (List.mem_append_left _ hx)⟩
  | succ f ih =>
    intro indeg queue ordered h1 h2 h3 h4 h5 h6
    cases queue with
    | nil =>
      exact ⟨h6, (List.nodup_append.mp h3).1, fun x hx => h4 x (List.mem_append_left _ hx)⟩
    | cons n rest =>
      have hO : ordered.Nodup := (List.nodup_append.mp h3).1
      have hDisj : ordered.Disjoint (n :: rest) := (List.nodup_append.mp h3).2.2
      have hnO : n ∉ ordered := fun hmem => hDisj hmem (List.mem_cons_self n rest)
      have hnNode : n ∈ g.map Prod.fst :=
        h4 n (List.mem_append_right _ (List.mem_cons_self n rest))
      have hsubN : ∀ d ∈ igdeps g n, d ∈ ordered := h5 n (List.mem_cons_self n rest)
      have hres2 : respectsDeps g (ordered ++ [n]) := respectsDeps_append g ordered n h6 hsubN
      have hpass1 : (kahn_pass g indeg n).1 = indeg.map (fun tv =>
          (tv.1, if n ∈ depsOf g tv.1 then tv.2 - 1 else tv.2)) := by
        show indeg.map _ = _
        apply List.map_congr_left
        intro tv _
        by_cases hc : n ∈ depsOf g tv.1
        · simp [contains_eq_decide_mem, hc]
        · simp [contains_eq_decide_mem, hc]
      have hpass2 : (kahn_pass g indeg n).2 =
          ((kahn_pass g indeg n).1.filter
            (fun tv => (depsOf g tv.1).contains n && tv.2 == 0)).map Prod.fst := rfl
      have hkeys2 : (kahn_pass g indeg n).1.map Prod.fst = g.map Prod.fst := by
        rw [hpass1, List.map_map, ← h1]
        apply List.map_congr_left
        intro tv _
        rfl
      have hpred : ∀ d, (!((ordered ++ [n]).contains d)) =
          ((!(ordered.contains d)) && !(d == n)) := by
        intro d
        rw [contains_eq_decide_mem, contains_eq_decide_mem]
        by_cases h1d : d ∈ ordered
        · simp [h1d]
        · by_cases h2d : d = n
          · subst h2d
            simp [h1d]
          · simp [h1d, h2d]
      have hlookup2 : ∀ t ∈ g.map Prod.fst, List.lookup t (kahn_pass g indeg n).1 =
          some (((igdeps g t).filter (fun d => !((ordered ++ [n]).contains d))).length : Int) := by
        intro t ht
        rw [hpass1,
          lookup_map_values indeg (fun k v => if n ∈ depsOf g k then v - 1 else v) t,
          h2 t ht]
        rw [List.filter_congr (fun d _ => hpred d)]
        by_cases hc : n ∈ depsOf g t
        · have hnig : n ∈ igdeps g t :=
            List.mem_filter.mpr ⟨hc, (lookup_isSome_iff g n).mpr hnNode⟩
          have hcount := length_filter_erase_one (igdeps g t) (igdeps_nodup g hdeps t)
            (fun d => !(ordered.contains d)) n hnig
            (by show (!(ordered.contains n)) = true
                rw [contains_eq_decide_mem]
                simp [hnO])
          simp only [Option.map_some', if_pos hc]
          apply congrArg
          rw [hcount]
          push_cast
          ring
        · have hsame : (igdeps g t).filter (fun d => (!(ordered.contains d)) && !(d == n)) =
              (igdeps g t).filter (fun d => !(ordered.contains d)) := by
            apply List.filter_congr
            intro d hd
            have hdne : (d == n) = false := beq_false_of_ne (fun he =>
              hc (he ▸ (List.mem_filter.mp hd).1))
            simp [hdne]
          simp only [Option.map_some', if_neg hc, hsame]
      have hzchar : ∀ t ∈ (kahn_pass g indeg n).2,
          t ∈ g.map Prod.fst ∧ n ∈ igdeps g t ∧ (∀ d ∈ igdeps g t, d ∈ ordered ++ [n]) := by
        intro t ht
        rw [hpass2] at ht
        have hnd2 : ((kahn_pass g indeg n).1.map Prod.fst).Nodup := by
          rw [hkeys2]; exact hkeys
        rcases (mem_filter_map_fst hnd2 _ t).mp ht with ⟨v, hv, hq⟩
        have htnode : t ∈ g.map Prod.fst := by
          rw [← hkeys2]
          exact (lookup_isSome_iff _ t).mp (by simp [hv])
        rw [hlookup2 t htnode] at hv
        have hveq : v = (((igdeps g t).filter
            (fun d => !((ordered ++ [n]).contains d))).length : Int) := by
          simpa using hv.symm
        simp only [Bool.and_eq_true] at hq
        rcases hq with ⟨hcn, hv0⟩
        have hn_in : n ∈ igdeps g t :=
          List.mem_filter.mpr ⟨List.elem_iff.mp hcn, (lookup_isSome_iff g n).mpr hnNode⟩
        have hv0' : v = 0 := by simpa using hv0
        have hlen0 : ((igdeps g t).filter
            (fun d => !((ordered ++ [n]).contains d))).length = 0 := by
          rw [hv0'] at hveq
          exact_mod_cast hveq.symm
        have hnil := List.length_eq_zero.mp hlen0
        refine ⟨htnode, hn_in, ?_⟩
        intro d hd
        by_cases hdm : d ∈ ordered ++ [n]
        · exact hdm
        · exfalso
          have : d ∈ (igdeps g t).filter (fun d => !((ordered ++ [n]).contains d)) := by
            apply List.mem_filter.mpr
            refine ⟨hd, ?_⟩
            rw [contains_eq_decide_mem]
            simp [hdm]
          rw [hnil] at this
          cases this
      have hznd : (kahn_pass g indeg n).2.Nodup := by
        rw [hpass2]
        have hnd2 : ((kahn_pass g indeg n).1.map Prod.fst).Nodup := by
          rw [hkeys2]; exact hkeys
        exact hnd2.sublist ((List.filter_sublist _).map Prod.fst)
      have hznotold : ∀ t ∈ (kahn_pass g indeg n).2,
          t ∉ ordered ∧ t ≠ n ∧ t ∉ rest := by
        intro t ht
        rcases hzchar t ht with ⟨_, hn_in, _⟩
        refine ⟨?_, ?_, ?_⟩
        · intro hto
          rcases List.append_of_mem hto with ⟨s, u, hsu⟩
          have hns : n ∈ s := h6 s t u hsu n hn_in
          exact hnO (by rw [hsu]; exact List.mem_append_left _ hns)
        · intro hte
          subst hte
          exact hnO (hsubN t hn_in)
        · intro htr
          exact hnO (h5 t (List.mem_cons_of_mem n htr) n hn_in)
      have h3' : ((ordered ++ [n]) ++ (rest ++ (kahn_pass g indeg n).2)).Nodup := by
        have hold : ((ordered ++ [n]) ++ rest).Nodup := by
          rw [List.append_assoc]
          simpa using h3
        rw [show (ordered ++ [n]) ++ (rest ++ (kahn_pass g indeg n).2) =
          ((ordered ++ [n]) ++ rest) ++ (kahn_pass g indeg n).2 from
            (List.append_assoc (ordered ++ [n]) rest (kahn_pass g indeg n).2).symm]
        apply List.nodup_append.mpr
        refine ⟨hold, hznd, ?_⟩
        intro a ha haz
        rcases hznotold a haz with ⟨hao, han, har⟩
        rcases List.mem_append.mp ha with ha2 | ha2
        · rcases List.mem_append.mp ha2 with ha3 | ha3
          · exact hao ha3
          · exact han (by simpa using ha3)
        · exact har ha2
      have h4' : ∀ x ∈ (ordered ++ [n]) ++ (rest ++ (kahn_pass g indeg n).2),
          x ∈ g.map Prod.fst := by
        intro x hx
        rcases List.mem_append.mp hx with hx2 | hx2
        · rcases List.mem_append.mp hx2 with hx3 | hx3
          · exact h4 x (List.mem_append_left _ hx3)
          · have : x = n := by simpa using hx3
            subst this
            exact hnNode
        · rcases List.mem_append.mp hx2 with hx3 | hx3
          · exact h4 x (List.mem_append_right _ (List.mem_cons_of_mem n hx3))
          · exact (hzchar x hx3).1
      have h5' : ∀ t ∈ rest ++ (kahn_pass g indeg n).2,
          ∀ d ∈ igdeps g t, d ∈ ordered ++ [n] := by
        intro t ht d hd
        rcases List.mem_append.mp ht with ht2 | ht2
        · exact List.mem_append_left _ (h5 t (List.mem_cons_of_mem n ht2) d hd)
        · exact (hzchar t ht2).2.2 d hd
      exact ih (kahn_pass g indeg n).1 (rest ++ (kahn_pass g indeg n).2) (ordered ++ [n])
        hkeys2 hlookup2 h3' h4' h5' hres2

/-- C1: whenever `topological_sort` produces an order (as it does for
every acyclic graph — on a cyclic graph it raises instead), every
formula cell is placed after every formula-cell dependency it reads
from; dependencies that are not graph nodes impose no ordering.  The
hypotheses state that the graph is a Python dict of sets: distinct keys
and duplicate-free dependency lists. -/
theorem topological_sort_respects_dependencies
    (g : List (String × List String))
    (hkeys : (g.map Prod.fst).Nodup)
    (hdeps : ∀ p ∈ g, p.2.Nodup)
    (l : List String) (hok : topological_sort g = .ok l) :
    ∀ p ∈ g, ∀ d ∈ p.2, d ∈ g.map Prod.fst →
      p.1 ∈ l ∧ d ∈ l ∧ ∀ l₁ l₂, l = l₁ ++ p.1 :: l₂ → d ∈ l₁ := by
  have hindeg0 : (g.map (fun p =>
      (p.1, ((p.2.filter (fun d => (List.lookup d g).isSome)).length : Int)))).map Prod.fst =
      g.map Prod.fst := by
    rw [List.map_map]
    apply List.map_congr_left
    intro p _
    rfl
  have hinv2 : ∀ t ∈ g.map Prod.fst,
      List.lookup t (g.map (fun p =>
        (p.1, ((p.2.filter (fun d => (List.lookup d g).isSome)).length : Int)))) =
      some (((igdeps g t).filter (fun d => !(([] : List String).contains d))).length : Int) := by
    intro t ht
    rw [lookup_map_values g
      (fun _ v => ((v.filter (fun d => (List.lookup d g).isSome)).length : Int)) t]
    have hsome : (List.lookup t g).isSome = true := (lookup_isSome_iff g t).mpr ht
    rcases Option.isSome_iff_exists.mp hsome with ⟨deps, hdl⟩
    rw [hdl]
    have hfilter_all : (igdeps g t).filter (fun d => !(([] : List String).contains d)) =
        igdeps g t :=
      List.filter_eq_self.mpr (fun d _ => by simp [List.contains])
    rw [hfilter_all, igdeps, depsOf, hdl]
    rfl
  have hq0nodup : ((((g.map (fun p =>
      (p.1, ((p.2.filter (fun d => (List.lookup d g).isSome)).length : Int)))).filter
        (fun tv => tv.2 == 0)).map Prod.fst)).Nodup := by
    have : (((g.map (fun p =>
        (p.1, ((p.2.filter (fun d => (List.lookup d g).isSome)).length : Int)))).map
          Prod.fst)).Nodup := by
      rw [hindeg0]; exact hkeys
    exact this.sublist ((List.filter_sublist _).map Prod.fst)
  have hq0sub : ∀ x ∈ (((g.map (fun p =>
      (p.1, ((p.2.filter (fun d => (List.lookup d g).isSome)).length : Int)))).filter
        (fun tv => tv.2 == 0)).map Prod.fst), x ∈ g.map Prod.fst := by
    intro x hx
    rcases (mem_filter_map_fst (by rw [hindeg0]; exact hkeys) _ x).mp hx with ⟨v, hv, _⟩
    rw [← hindeg0]
    exact (lookup_isSome_iff _ x).mp (by simp [hv])
  have hq0deps : ∀ t ∈ (((g.map (fun p =>
      (p.1, ((p.2.filter (fun d => (List.lookup d g).isSome)).length : Int)))).filter
        (fun tv => tv.2 == 0)).map Prod.fst), ∀ d ∈ igdeps g t, d ∈ ([] : List String) := by
    intro t ht
    rcases (mem_filter_map_fst (by rw [hindeg0]; exact hkeys) _ t).mp ht with ⟨v, hv, hq⟩
    have htnode : t ∈ g.map Prod.fst := by
      rw [← hindeg0]
      exact (lookup_isSome_iff _ t).mp (by simp [hv])
    rw [hinv2 t htnode] at hv
    have hv0 : v = 0 := by simpa using hq
    have hlen0 : ((igdeps g t).filter (fun d => !(([] : List String).contains d))).length = 0 := by
      have h2 := hv.symm
      rw [hv0] at h2
      have h3 : (0 : Int) = (((igdeps g t).filter
          (fun d => !(([] : List String).contains d))).length : Int) := by
        simpa using h2
      exact_mod_cast h3.symm
    have hall : (igdeps g t).filter (fun d => !(([] : List String).contains d)) = igdeps g t :=
      List.filter_eq_self.mpr (fun d _ => by simp [List.contains])
    rw [hall] at hlen0
    intro d hd
    rw [List.length_eq_zero.mp hlen0] at hd
    cases hd
  obtain ⟨hres, hnd, hsub⟩ := kahn_loop_invariant g hkeys hdeps (2 * g.length + 1)
    (g.map (fun p => (p.1, ((p.2.filter (fun d => (List.lookup d g).isSome)).length : Int))))
    (((g.map (fun p =>
      (p.1, ((p.2.filter (fun d => (List.lookup d g).isSome)).length : Int)))).filter
        (fun tv => tv.2 == 0)).map Prod.fst) []
    hindeg0 hinv2 (by simpa using hq0nodup) (fun x hx => hq0sub x (by simpa using hx))
    hq0deps (fun l₁ n l₂ h => absurd h (by simp))
  simp only [topological_sort] at hok
  split at hok
  · cases hok
  · rename_i hlen
    have hlval : l = kahn_loop g (2 * g.length + 1)
        (g.map (fun p => (p.1, ((p.2.filter (fun d => (List.lookup d g).isSome)).length : Int))))
        (((g.map (fun p =>
          (p.1, ((p.2.filter (fun d => (List.lookup d g).isSome)).length : Int)))).filter
            (fun tv => tv.2 == 0)).map Prod.fst) [] := by
      cases hok
      rfl
    have hlen2 : l.length = g.length := by
      rw [hlval]
      exact Classical.byContradiction (fun hcc => hlen (hlval ▸ hcc))
    rw [← hlval] at hres hnd hsub
    have hcomplete : ∀ x ∈ g.map Prod.fst, x ∈ l := by
      intro x hx
      have hsubF : l.toFinset ⊆ (g.map Prod.fst).toFinset := by
        intro a ha
        exact List.mem_toFinset.mpr (hsub a (List.mem_toFinset.mp ha))
      have hcard : (g.map Prod.fst).toFinset.card ≤ l.toFinset.card := by
        rw [List.toFinset_card_of_nodup hnd, List.toFinset_card_of_nodup hkeys,
          List.length_map, hlen2]
      have hfeq := Finset.eq_of_subset_of_card_le hsubF hcard
      exact List.mem_toFinset.mp (hfeq ▸ List.mem_toFinset.mpr hx)
    intro p hp d hd hdn
    have hdig : d ∈ igdeps g p.1 := by
      have hlk : List.lookup p.1 g = some p.2 := lookup_of_mem_nodupKeys hkeys hp
      rw [igdeps, depsOf, hlk]
      exact List.mem_filter.mpr ⟨hd, (lookup_isSome_iff g d).mpr hdn⟩
    refine ⟨hcomplete p.1 (List.mem_map_of_mem Prod.fst hp), hcomplete d hdn, ?_⟩
    intro l₁ l₂ hsplit
    exact hres l₁ p.1 l₂ hsplit d hdig

/-- C1 witness: the concrete two-formula graph where `A2` reads the
input cell `A1` and the formula cell `B1`; the produced order is
`[B1, A2]` and `B1` indeed precedes `A2`. -/
theorem topological_sort_respects_dependencies_witness :
    topological_sort [("A2", ["A1", "B1"]), ("B1", [])] = .ok ["B1", "A2"] ∧
    ("A2" ∈ ["B1", "A2"] ∧ "B1" ∈ ["B1", "A2"] ∧
      ∀ l₁ l₂, ["B1", "A2"] = l₁ ++ "A2" :: l₂ → "B1" ∈ l₁) :=
  ⟨rfl, topological_sort_respects_dependencies [("A2", ["A1", "B1"]), ("B1", [])]
    (by decide) (by decide) ["B1", "A2"] rfl
    ("A2", ["A1", "B1"]) (by decide) "B1" (by decide) (by decide)⟩

/-! ### Expression evaluator (`core/evaluator.py`)

`parse_formula` turns a formula string into a Python expression over the
primitives of `build_eval_context` (`cell_`, `range_`, `if_func`,
`or_func`, `and_func`, `abs`, `max`, `min`, `sum`, arithmetic and
comparison operators); `evaluate_formula` then runs it with Python
`eval`.  The embedding represents that parsed expression as the `Expr`
tree below and `eval` as `evalExpr`, with Python numbers as exact
rationals.  The transcendental context entries (`sqrt`, `exp`, the trig
family, `pi_func`) have no exact rational semantics and none of the
claims under study exercises them, so the embedded expression language
omits them; every other context primitive and operator is modelled. -/

/-- A Python runtime value flowing through an evaluated expression:
a float, a bool (from comparisons and `or_func`/`and_func`), or the list
of floats returned by `range_`. -/
inductive Val where
  | num (q : ℚ)
  | bool (b : Bool)
  | list (xs : List ℚ)
  deriving Repr, DecidableEq

/-- Python truthiness, as used by `if_func`, `or_func` and `and_func`. -/
def Val.truthy : Val → Bool
  | .num q => decide (q ≠ 0)
  | .bool b => b
  | .list xs => !xs.isEmpty

/-- Coerce a value to a float as Python's arithmetic does (`True` is 1,
`False` is 0, a list raises `TypeError`). -/
def Val.toNum : Val → Except Err ℚ
  | .num q => .ok q
  | .bool b => .ok (if b then 1 else 0)
  | .list _ => .error (.typeError "unsupported operand type for arithmetic: list")

/-- Comparison operators appearing in translated formulas (`<`, `<=`,
`>`, `>=`, `==` from a rewritten `=`, `!=` from `<>`). -/
inductive CmpOp where
  | lt | le | gt | ge | eq | ne
  deriving Repr, DecidableEq

mutual
/-- The expression form of a parsed formula (`ParsedFormula.python_expr`).
Variadic calls (`or_func`, `and_func`, `max`, `min`) carry their
argument list as the mutually defined `ExprList`. -/
inductive Expr where
  | num (q : ℚ)
  | cellRef (a : String)
  | rangeRef (s e : String)
  | add (a b : Expr)
  | sub (a b : Expr)
  | mul (a b : Expr)
  | div (a b : Expr)
  | neg (a : Expr)
  | ifF (c t f : Expr)
  | orF (args : ExprList)
  | andF (args : ExprList)
  | absF (a : Expr)
  | maxF (args : ExprList)
  | minF (args : ExprList)
  | sumF (a : Expr)
  | cmp (op : CmpOp) (a b : Expr)
  deriving Repr

/-- Argument list of a variadic call. -/
inductive ExprList where
  | nil
  | cons (head : Expr) (tail : ExprList)
  deriving Repr
end

/-- `cell_` of `build_eval_context`: look the address up in the known
values, raising `FormulaError` (missing value) when absent. -/
def cell_ (values : List (String × ℚ)) (c : String) : Except Err ℚ :=
  match List.lookup c values with
  | none => .error (.missingValue c)
  | some v => .ok v

/-- Integer range `[a, b)` as Python `range(a, b)` over `Int`. -/
def intRange (a b : Int) : List Int :=
  (List.range (b - a).toNat).map (fun i => a + (i : Int))

/-- `range_` of `build_eval_context`: split both corners, normalize the
rectangle with `min`/`max` on both axes, and read every member cell
row-major through `cell_`. -/
def range_ (values : List (String × ℚ)) (s e : String) : Except Err (List ℚ) := do
  let sc ← split_cell s
  let ec ← split_cell e
  let cols := intRange (min sc.1 ec.1) (max sc.1 ec.1 + 1)
  let rows := intRange (min (sc.2 : Int) (ec.2 : Int)) (max (sc.2 : Int) (ec.2 : Int) + 1)
  (rows.flatMap (fun row => cols.map (fun col => (row, col)))).mapM
    (fun rc => cell_ values (col_to_letters rc.2 ++ toString rc.1))

/-- Coerce a list of argument values to floats, left to right. -/
def valsToNums : List Val → Except Err (List ℚ)
  | [] => .ok []
  | v :: rest => do
    let q ← v.toNum
    let qs ← valsToNums rest
    .ok (q :: qs)

/-- Python `max`/`min` call semantics for `max(...)`/`min(...)`: one
list argument aggregates over the list (`ValueError` when empty), any
other argument shape is the scalar fold (`TypeError` when a lone scalar
is not iterable, `TypeError` when no arguments). -/
def foldExtremum (pick : ℚ → ℚ → ℚ) (args : List Val) : Except Err ℚ :=
  match args with
  | [.list xs] =>
    match xs with
    | [] => .error (.valueError "arg is an empty sequence")
    | x :: rest => .ok (rest.foldl pick x)
  | [v] =>
    match v with
    | .list _ => .error (.valueError "arg is an empty sequence")
    | _ => .error (.typeError "argument of type number is not iterable")
  | [] => .error (.typeError "expected at least 1 argument, got 0")
  | _ => do
    let qs ← valsToNums args
    match qs with
    | [] => .error (.typeError "expected at least 1 argument, got 0")
    | x :: rest => .ok (rest.foldl pick x)

mutual
/-- The embedded Python `eval` over a translated formula expression. -/
def evalExpr (values : List (String × ℚ)) : Expr → Except Err Val
  | .num q => .ok (.num q)
  | .cellRef a => (cell_ values a).map .num
  | .rangeRef s e2 => (range_ values s e2).map .list
  | .add a b => do
    let va ← evalExpr values a
    let vb ← evalExpr values b
    let x ← va.toNum
    let y ← vb.toNum
    .ok (.num (x + y))
  | .sub a b => do
    let va ← evalExpr values a
    let vb ← evalExpr values b
    let x ← va.toNum
    let y ← vb.toNum
    .ok (.num (x - y))
  | .mul a b => do
    let va ← evalExpr values a
    let vb ← evalExpr values b
    let x ← va.toNum
    let y ← vb.toNum
    .ok (.num (x * y))
  | .div a b => do
    let va ← evalExpr values a
    let vb ← evalExpr values b
    let x ← va.toNum
    let y ← vb.toNum
    if y = 0 then .error .zeroDivisionError else .ok (.num (x / y))
  | .neg a => do
    let va ← evalExpr values a
    let x ← va.toNum
    .ok (.num (-x))
  | .ifF c t f => do
    let vc ← evalExpr values c
    let vt ← evalExpr values t
    let vf ← evalExpr values f
    .ok (if vc.truthy then vt else vf)
  | .orF args => do
    let vs ← evalArgList values args
    .ok (.bool (vs.any Val.truthy))
  | .andF args => do
    let vs ← evalArgList values args
    .ok (.bool (vs.all Val.truthy))
  | .absF a => do
    let va ← evalExpr values a
    let x ← va.toNum
    .ok (.num |x|)
  | .maxF args => do
    let vs ← evalArgList values args
    let q ← foldExtremum max vs
    .ok (.num q)
  | .minF args => do
    let vs ← evalArgList values args
    let q ← foldExtremum min vs
    .ok (.num q)
  | .sumF a => do
    let va ← evalExpr values a
    match va with
    | .list xs => .ok (.num (xs.foldl (· + ·) 0))
    | _ => .error (.typeError "sum argument is not iterable")
  | .cmp op a b => do
    let va ← evalExpr values a
    let vb ← evalExpr values b
    let x ← va.toNum
    let y ← vb.toNum
    .ok (.bool (match op with
      | .lt => decide (x < y)
      | .le => decide (x ≤ y)
      | .gt => decide (y < x)
      | .ge => decide (y ≤ x)
      | .eq => decide (x = y)
      | .ne => decide (x ≠ y)))

/-- Evaluate the arguments of a variadic call, left to right. -/
def evalArgList (values : List (String × ℚ)) : ExprList → Except Err (List Val)
  | .nil => .ok []
  | .cons e rest => do
    let v ← evalExpr values e
    let vs ← evalArgList values rest
    .ok (v :: vs)
end

/-- `evaluator.evaluate_formula`: run the parsed expression and coerce
the result with `float(...)`; a `FormulaError` propagates unchanged,
any other exception is wrapped into a `FormulaError` naming the formula
(`evalWrapped`). -/
def evaluate_formula (e : Expr) (values : List (String × ℚ)) : Except Err ℚ :=
  match evalExpr values e with
  | .ok (.num q) => .ok q
  | .ok (.bool b) => .ok (if b then 1 else 0)
  | .ok (.list _) => .error (.evalWrapped (.typeError "float() argument must be a number"))
  | .error ex => if ex.isFormulaError then .error ex else .error (.evalWrapped ex)

/-! ### Data model (`core/model.py`) and compute engine (`core/compute.py`) -/

/-- `model.InputCell`. -/
structure InputCell where
  cell : String
  name : String
  default : ℚ
  unit : String
  description : String
  deriving Repr

/-- `model.FormulaCell`; the embedding carries both the source formula
string (used for dependency extraction) and its parsed expression form
(`expr`), since Python keeps the string and parses on evaluation. -/
structure FormulaCell where
  cell : String
  formula : String
  expr : Expr
  deriving Repr

/-- `model.SolverConstraint`. -/
structure SolverConstraint where
  type : String
  lhs : String
  rhs : String
  deriving Repr, DecidableEq

/-- `model.SolverSpec`. -/
structure SolverSpec where
  objective : String
  «variables» : List String
  constraints : List SolverConstraint
  deriving Repr

/-- `model.Schema`. -/
structure Schema where
  inputs : List InputCell
  formulas : List FormulaCell
  solver : SolverSpec
  version : String
  deriving Repr

/-- Python dict insertion: overwrite an existing key in place, append a
new key at the end. -/
def assocInsert {α : Type} (l : List (String × α)) (k : String) (v : α) : List (String × α) :=
  if (List.lookup k l).isSome then l.map (fun p => if p.1 = k then (k, v) else p)
  else l ++ [(k, v)]

/-- `model.build_default_cell_values`: address (normalized) to declared
default, in input order. -/
def build_default_cell_values (schema : Schema) : List (String × ℚ) :=
  schema.inputs.foldl (fun acc item => assocInsert acc (normalize_cell item.cell) item.default) []

/-- `model.schema_formulas_by_cell`. -/
def schema_formulas_by_cell (schema : Schema) : List (String × FormulaCell) :=
  schema.formulas.foldl (fun acc item => assocInsert acc (normalize_cell item.cell) item) []

/-- `compute.ComputeResult`. -/
structure ComputeResult where
  values : List (String × ℚ)
  key_outputs : List (String × Option ℚ)
  table_rows : List (Option ℚ × Option ℚ × Option ℚ × Option ℚ)
  deriving Repr, DecidableEq

/-- `compute.KEY_OUTPUTS`. -/
def KEY_OUTPUTS : List String := ["J122", "J132", "L141", "J169", "T168", "T178", "J204"]

/-- `ComputeEngine._build_table`: the 11-row, 4-column view over rows
106..116 of columns N, O, P, Q, read with `dict.get`. -/
def build_table (data : List (String × ℚ)) :
    List (Option ℚ × Option ℚ × Option ℚ × Option ℚ) :=
  (List.range 11).map (fun i =>
    let row := 106 + i
    (List.lookup ("N" ++ toString row) data,
     List.lookup ("O" ++ toString row) data,
     List.lookup ("P" ++ toString row) data,
     List.lookup ("Q" ++ toString row) data))

/-- `compute.ComputeEngine` after construction: the schema, the formula
index, the dependency graph and the topological order, all built once. -/
structure ComputeEngine where
  schema : Schema
  formulas : List (String × FormulaCell)
  graph : List (String × List String)
  order : List String
  deriving Repr

/-- `ComputeEngine.__init__`: build the formula index, the dependency
graph and the topological order; construction fails (with the cycle
`ValueError`) when the graph is cyclic. -/
def ComputeEngine.make (schema : Schema) : Except Err ComputeEngine := do
  let formulas := schema_formulas_by_cell schema
  let graph := build_dependency_graph (formulas.map (fun p => (p.1, p.2.formula)))
  let order ← topological_sort graph
  .ok ⟨schema, formulas, graph, order⟩

/-- `ComputeEngine.default_values`. -/
def ComputeEngine.default_values (e : ComputeEngine) : List (String × ℚ) :=
  build_default_cell_values e.schema

/-- The evaluation loop of `ComputeEngine.compute`: for each cell of the
topological order, evaluate its formula against the working mapping and
write the result back before the next cell; a `FormulaError` is
re-raised wrapped with the failing cell's address, aborting the loop. -/
def computeCells (formulas : List (String × FormulaCell)) :
    List String → List (String × ℚ) → Except Err (List (String × ℚ))
  | [], data => .ok data
  | c :: rest, data =>
    match List.lookup c formulas with
    | none => .error (.keyError c)
    | some f =>
      match evaluate_formula f.expr data with
      | .error e => .error (.cellError c e)
      | .ok v => computeCells formulas rest (assocInsert data c v)

/-- `ComputeEngine.compute`: copy the input overrides (normalized,
coerced to float), evaluate every formula cell strictly in topological
order, then bundle the full mapping with the key-output subset and the
auxiliary table. -/
def ComputeEngine.compute (e : ComputeEngine) (values : List (String × ℚ)) :
    Except Err ComputeResult := do
  let data0 := values.foldl (fun acc kv => assocInsert acc (normalize_cell kv.1) kv.2) []
  let data ← computeCells e.formulas e.order data0
  .ok ⟨data, KEY_OUTPUTS.map (fun c => (c, List.lookup c data)), build_table data⟩

/-- Specification mirror of the evaluation loop: the first cell of the
order whose formula evaluation fails on the accumulated mapping,
together with the raised error games; `none` when every cell evaluates. -/
def firstFailure (formulas : List (String × FormulaCell)) :
    List String → List (String × ℚ) → Option (String × Err)
  | [], _ => none
  | c :: rest, data =>
    match List.lookup c formulas with
    | none => none
    | some f =>
      match evaluate_formula f.expr data with
      | .error e => some (c, e)
      | .ok v => firstFailure formulas rest (assocInsert data c v)

lemma evaluate_formula_error_isFormulaError (e : Expr) (values : List (String × ℚ)) (ex : Err)
    (h : evaluate_formula e values = .error ex) : ex.isFormulaError = true := by
  rw [evaluate_formula] at h
  rcases hev : evalExpr values e with ex2 | v
  · rw [hev] at h
    by_cases hf : ex2.isFormulaError = true
    · simp only [hf, if_true] at h
      cases h
      exact hf
    · simp only [hf, if_false] at h
      cases h
      rfl
  · rw [hev] at h
    rcases v with q | b | xs <;> simp at h
    rw [← h]
    rfl

lemma computeCells_firstFailure (formulas : List (String × FormulaCell)) :
    ∀ (order : List String) (data : List (String × ℚ)),
    (∀ c e, firstFailure formulas order data = some (c, e) →
      computeCells formulas order data = .error (.cellError c e) ∧
      c ∈ order ∧ e.isFormulaError = true) ∧
    (firstFailure formulas order data = none →
      (∀ c ∈ order, (List.lookup c formulas).isSome) →
      ∃ d, computeCells formulas order data = .ok d) := by
  intro order
  induction order with
  | nil =>
    intro data
    constructor
    · intro c e h
      cases h
    · intro _ _
      exact ⟨data, rfl⟩
  | cons c0 rest ih =>
    intro data
    constructor
    · intro c e h
      rw [firstFailure] at h
      rcases hlk : List.lookup c0 formulas with _ | f
      · simp only [hlk] at h
        cases h
      · simp only [hlk] at h
        rcases hev : evaluate_formula f.expr data with ex | v
        · simp only [hev, Option.some.injEq, Prod.mk.injEq] at h
          rcases h with ⟨rfl, rfl⟩
          refine ⟨?_, List.mem_cons_self _ _, evaluate_formula_error_isFormulaError _ _ _ hev⟩
          simp only [computeCells, hlk, hev]
        · simp only [hev] at h
          rcases (ih (assocInsert data c0 v)).1 c e h with ⟨h1, h2, h3⟩
          refine ⟨?_, List.mem_cons_of_mem _ h2, h3⟩
          simp only [computeCells, hlk, hev]
          exact h1
    · intro hnone hall
      rw [firstFailure] at hnone
      rcases hlk : List.lookup c0 formulas with _ | f
      · exact absurd (by simp [hlk] : (List.lookup c0 formulas).isSome = false)
          (by simp [hall c0 (List.mem_cons_self _ _)])
      · simp only [hlk] at hnone
        rcases hev : evaluate_formula f.expr data with ex | v
        · simp only [hev] at hnone
          cases hnone
        · simp only [hev] at hnone
          rcases (ih (assocInsert data c0 v)).2 hnone
            (fun c hc => hall c (List.mem_cons_of_mem _ hc)) with ⟨d, hd⟩
          refine ⟨d, ?_⟩
          simp only [computeCells, hlk, hev]
          exact hd

/-- C2: during a compute call, if evaluating any formula cell raises a
`FormulaError`, the whole call fails with a wrapped error carrying that
cell's address (`cellError`), and no `ComputeResult` is returned; when
no evaluation fails, the call returns a result.  `firstFailure` is the
specification-side description of the failing cell: only the first
failure can actually raise, because the loop aborts there. -/
theorem compute_aborts_on_formula_error (eng : ComputeEngine) (values : List (String × ℚ))
    (hall : ∀ c ∈ eng.order, (List.lookup c eng.formulas).isSome) :
    (∀ c e, firstFailure eng.formulas eng.order
        (values.foldl (fun acc kv => assocInsert acc (normalize_cell kv.1) kv.2) []) =
        some (c, e) →
      eng.compute values = .error (.cellError c e) ∧
      c ∈ eng.order ∧ e.isFormulaError = true ∧
      ∀ r : ComputeResult, eng.compute values ≠ .ok r) ∧
    (firstFailure eng.formulas eng.order
        (values.foldl (fun acc kv => assocInsert acc (normalize_cell kv.1) kv.2) []) = none →
      ∃ r : ComputeResult, eng.compute values = .ok r) := by
  constructor
  · intro c e h
    rcases (computeCells_firstFailure eng.formulas eng.order _).1 c e h with ⟨h1, h2, h3⟩
    have hcomp : eng.compute values = .error (.cellError c e) := by
      rw [ComputeEngine.compute]
      simp only [bind, Except.bind, h1]
    exact ⟨hcomp, h2, h3, fun r hr => by rw [hcomp] at hr; cases hr⟩
  · intro h
    rcases (computeCells_firstFailure eng.formulas eng.order _).2 h hall with ⟨d, hd⟩
    refine ⟨⟨d, KEY_OUTPUTS.map (fun c => (c, List.lookup c d)), build_table d⟩, ?_⟩
    rw [ComputeEngine.compute]
    simp only [bind, Except.bind, hd]

/-- Extract the engine from a successful construction (total helper for
concrete instances). -/
def getEngine (e : Except Err ComputeEngine) (d : ComputeEngine) : ComputeEngine :=
  match e with
  | .ok x => x
  | .error _ => d

/-- A one-formula schema whose only formula reads a cell that is never
supplied: `A2 = Z9`. -/
def schemaFail : Schema :=
  { inputs := []
    formulas := [⟨"A2", "=Z9", .cellRef "Z9"⟩]
    solver := ⟨"J204", ["C7", "J7", "C9", "J94"], []⟩
    version := "1" }

/-- The engine built from `schemaFail`. -/
def engineFail : ComputeEngine :=
  getEngine (ComputeEngine.make schemaFail) ⟨schemaFail, [], [], []⟩

/-- C2 witness: on the concrete engine whose formula `A2 = Z9` reads a
missing cell, compute aborts with the wrapped error naming `A2`. -/
theorem compute_aborts_on_formula_error_witness :
    (∀ c ∈ engineFail.order, (List.lookup c engineFail.formulas).isSome) ∧
    firstFailure engineFail.formulas engineFail.order [] = some ("A2", .missingValue "Z9") ∧
    engineFail.compute [] = .error (.cellError "A2" (.missingValue "Z9")) :=
  ⟨by decide, rfl,
    ((compute_aborts_on_formula_error engineFail [] (by decide)).1 "A2"
      (.missingValue "Z9") rfl).1⟩

/-! ### Optimizer (`solver/optimizer.py`, `solver/callbacks.py`)

`scipy.optimize.minimize` is an external numerical routine; the
embedding abstracts one `minimize` call as a `SolverRun`: the sequence
of iterates on which SLSQP invokes the user callback, the final `x`, and
the result message.  The optimizer wrapper around it — bounds and
constraint construction, the objective with its optional penalty term,
the per-iterate history capture and best-feasible tracking, and the
final best-versus-final choice — is embedded exactly as in the source.
All theorems about the optimizer quantify over every possible
`SolverRun`, hence over every behaviour the numerical solver could
exhibit.  Per modelled iterate the objective and then the callback are
evaluated; the strict-mode constraint closures perform the same
`compute`/`_resolve_value` calls as the callback does at the same
iterate, so their failure modes are subsumed by the modelled calls. -/

/-- `callbacks.IterationRecord`. -/
structure IterationRecord where
  iteration : Nat
  «variables» : List (String × ℚ)
  objective : ℚ
  outputs : List (String × ℚ)
  violations : List (String × ℚ)
  deriving Repr, DecidableEq

/-- `callbacks.OptimizationHistory` (append-only record list). -/
structure OptimizationHistory where
  records : List IterationRecord
  deriving Repr, DecidableEq

/-- `optimizer.ConstraintStatus`. -/
structure ConstraintStatus where
  name : String
  violation : ℚ
  status : String
  deriving Repr, DecidableEq

/-- `optimizer.OptimizationResult`. -/
structure OptimizationResult where
  success : Bool
  message : String
  values : List (String × ℚ)
  objective : ℚ
  constraints : List ConstraintStatus
  history : OptimizationHistory
  stage : String
  deriving Repr, DecidableEq

/-- One abstracted `scipy.optimize.minimize` call: the iterates passed
to the callback, the returned `result.x`, and `result.message`. -/
structure SolverRun where
  traj : List (List ℚ)
  finalX : List ℚ
  message : String
  deriving Repr

/-- `optimizer.Optimizer` state after `__init__`: the schema, the
engine, and `self.variables = schema.solver.variables`. -/
structure Optimizer where
  schema : Schema
  engine : ComputeEngine
  «variables» : List String
  deriving Repr

/-- `Optimizer.__init__`. -/
def Optimizer.make (schema : Schema) (engine : ComputeEngine) : Optimizer :=
  ⟨schema, engine, schema.solver.«variables»⟩

/-- Python `float(expr)` on a literal string: optional surrounding
whitespace and sign, decimal digits with an optional fraction and
scientific exponent.  (The non-finite spellings `inf`/`nan` denote
doubles outside the rational value domain and underscore digit
separators do not occur in schema expressions; both are outside the
model.) -/
def pyFloatParse (s : String) : Option ℚ :=
  let cs := ((s.data.dropWhile isSpacePy).reverse.dropWhile isSpacePy).reverse
  let signed : ℚ × List Char :=
    match cs with
    | '-' :: t => (-1, t)
    | '+' :: t => (1, t)
    | t => (1, t)
  let sign := signed.1
  let cs1 := signed.2
  let intDigits := cs1.takeWhile Char.isDigit
  let rest1 := cs1.drop intDigits.length
  let fracPart : List Char × List Char :=
    match rest1 with
    | '.' :: t => (t.takeWhile Char.isDigit, t.drop (t.takeWhile Char.isDigit).length)
    | t => ([], t)
  let fracDigits := fracPart.1
  let rest2 := fracPart.2
  if intDigits.isEmpty && fracDigits.isEmpty then none
  else
    let mant : ℚ := (digitsToNat intDigits : ℚ) +
      (digitsToNat fracDigits : ℚ) / ((10 : ℚ) ^ fracDigits.length)
    match rest2 with
    | [] => some (sign * mant)
    | 'e' :: t => pyFloatExp sign mant t
    | 'E' :: t => pyFloatExp sign mant t
    | _ => none
where
  /-- The exponent suffix of a float literal. -/
  pyFloatExp (sign mant : ℚ) (t : List Char) : Option ℚ :=
    let esigned : Int × List Char :=
      match t with
      | '-' :: t2 => (-1, t2)
      | '+' :: t2 => (1, t2)
      | t2 => (1, t2)
    let eDigits := esigned.2.takeWhile Char.isDigit
    if eDigits.isEmpty || !(esigned.2.drop eDigits.length).isEmpty then none
    else some (sign * mant * (10 : ℚ) ^ (esigned.1 * (digitsToNat eDigits : Int)))

/-- Dictionary access that raises `KeyError` when the key is absent. -/
def lookupOrKeyError (data : List (String × ℚ)) (k : String) : Except Err ℚ :=
  match List.lookup k data with
  | none => .error (.keyError k)
  | some v => .ok v

/-- `float(result.key_outputs[key])`: `KeyError` when absent,
`TypeError` when the stored `dict.get` result was `None`. -/
def getKeyOutput (res : ComputeResult) (key : String) : Except Err ℚ :=
  match List.lookup key res.key_outputs with
  | none => .error (.keyError key)
  | some none => .error (.typeError "float() argument must be a number, not NoneType")
  | some (some v) => .ok v

/-- `Optimizer._resolve_value`: literal number first, then the live
mapping, then the computed mapping (computed freshly from `values` when
the caller passed none), then the schema defaults; `KeyError` on the
normalized key otherwise. -/
def Optimizer.resolve_value (o : Optimizer) (expr : String) (values : List (String × ℚ))
    (computed : Option (List (String × ℚ))) : Except Err ℚ :=
  match pyFloatParse expr with
  | some q => .ok q
  | none =>
    let key := normalize_cell expr
    match List.lookup key values with
    | some v => .ok v
    | none => do
      let comp ← match computed with
        | some c => pure c
        | none => do
          let r ← o.engine.compute values
          pure r.values
      match List.lookup key comp with
      | some v => .ok v
      | none =>
        match List.lookup key o.engine.default_values with
        | some v => .ok v
        | none => .error (.keyError key)

/-- The per-constraint relative-violation expression of
`Optimizer._constraint_violations`, with `eps = 1e-6`; any type other
than `le` and `ge` falls to the equality formula, as in the source's
`if`/`elif`/`else`. -/
def constraint_violation (ctype : String) (lhs_val rhs_val : ℚ) : ℚ :=
  if ctype = "le" then max 0 ((lhs_val - rhs_val) / max |rhs_val| (1 / 1000000))
  else if ctype = "ge" then max 0 ((rhs_val - lhs_val) / max |lhs_val| (1 / 1000000))
  else |lhs_val - rhs_val| / max |rhs_val| (1 / 1000000)

/-- The constraint's display/debug name `"C{idx}: {lhs} {type} {rhs}"`. -/
def constraint_name (idx : Nat) (c : SolverConstraint) : String :=
  "C" ++ toString idx ++ ": " ++ c.lhs ++ " " ++ c.type ++ " " ++ c.rhs

/-- The severity colour of `_constraint_violations`. -/
def statusColor (violation : ℚ) : String :=
  if violation ≤ 1 / 10000 then "green" else if violation ≤ 5 / 100 then "yellow" else "red"

/-- The `enumerate(..., start=1)` loop of `_constraint_violations`. -/
def violationsLoop (o : Optimizer) (values computedVals : List (String × ℚ)) :
    Nat → List SolverConstraint → Except Err (List (String × ℚ) × List ConstraintStatus)
  | _, [] => .ok ([], [])
  | idx, c :: rest => do
    let lhs_val ← o.resolve_value c.lhs values (some computedVals)
    let rhs_val ← o.resolve_value c.rhs values (some computedVals)
    let name := constraint_name idx c
    let violation := constraint_violation c.type lhs_val rhs_val
    let tail ← violationsLoop o values computedVals (idx + 1) rest
    .ok ((name, violation) :: tail.1,
      ⟨name, violation, statusColor violation⟩ :: tail.2)

/-- `Optimizer._constraint_violations`: compute the mapping freshly,
then resolve and score every constraint. -/
def Optimizer.constraint_violations (o : Optimizer) (values : List (String × ℚ)) :
    Except Err (List (String × ℚ) × List ConstraintStatus) := do
  let res ← o.engine.compute values
  violationsLoop o values res.values 1 o.schema.solver.constraints

/-- `max(violations.values(), default=0.0)`. -/
def max_violation (violations : List (String × ℚ)) : ℚ :=
  match violations.map Prod.snd with
  | [] => 0
  | v :: rest => rest.foldl max v

/-- `Optimizer._update_values`: overwrite the decision variables with
the iterate's components. -/
def Optimizer.update_values (o : Optimizer) (values : List (String × ℚ)) (x : List ℚ) :
    List (String × ℚ) :=
  (o.«variables».zip x).foldl (fun acc vx => assocInsert acc vx.1 vx.2) values

/-- The `get` helper of `Optimizer._build_bounds`: live value, then the
baseline computed mapping, then the schema defaults, else `KeyError`. -/
def boundsGet (o : Optimizer) (values computedVals : List (String × ℚ)) (cell : String) :
    Except Err ℚ :=
  let key := normalize_cell cell
  match List.lookup key values with
  | some v => .ok v
  | none =>
    match List.lookup key computedVals with
    | some v => .ok v
    | none =>
      match List.lookup key o.engine.default_values with
      | some v => .ok v
      | none => .error (.keyError key)

/-- `Optimizer._build_bounds`: a baseline compute pass, the hard-coded
`bounds_map` pairing each decision variable with two bound cells, and a
defensive swap when a bound pair is inverted. -/
def Optimizer.build_bounds (o : Optimizer) (values : List (String × ℚ)) :
    Except Err (List (ℚ × ℚ)) := do
  let res ← o.engine.compute values
  let e195 ← boundsGet o values res.values "E195"
  let e197 ← boundsGet o values res.values "E197"
  let j191 ← boundsGet o values res.values "J191"
  let j193 ← boundsGet o values res.values "J193"
  let e191 ← boundsGet o values res.values "E191"
  let e193 ← boundsGet o values res.values "E193"
  let j195 ← boundsGet o values res.values "J195"
  let j197 ← boundsGet o values res.values "J197"
  let bounds_map : List (String × (ℚ × ℚ)) :=
    [("C7", (e195, e197)), ("J7", (j191, j193)), ("C9", (e191, e193)), ("J94", (j195, j197))]
  o.«variables».mapM (fun var =>
    match List.lookup var bounds_map with
    | none => .error (.keyError var)
    | some lh => if lh.1 > lh.2 then .ok (lh.2, lh.1) else .ok lh)

/-- `Optimizer._build_constraints`: none under soft mode, otherwise one
scipy constraint record per schema constraint (`eq` or `ineq`).  The
numeric body of each closure is `Optimizer.constraint_func`. -/
def Optimizer.build_constraints (o : Optimizer) (soft : Bool) :
    List (String × SolverConstraint) :=
  if soft then []
  else o.schema.solver.constraints.map (fun c => (if c.type = "eq" then "eq" else "ineq", c))

/-- The closure body built by `_build_constraints` for one constraint. -/
def Optimizer.constraint_func (o : Optimizer) (c : SolverConstraint)
    (values : List (String × ℚ)) (x : List ℚ) : Except Err ℚ := do
  let current := o.update_values values x
  let left_val ← o.resolve_value c.lhs current none
  let right_val ← o.resolve_value c.rhs current none
  if c.type = "le" then .ok (right_val - left_val)
  else if c.type = "ge" then .ok (left_val - right_val)
  else .ok (left_val - right_val)

/-- The `objective` closure of `_run_optimization`: recompute the cell
mapping at the iterate, read `key_outputs["J204"]`, and add the
quadratic penalty over relative violations in soft mode. -/
def Optimizer.objectiveFn (o : Optimizer) (soft : Bool) (base_values : List (String × ℚ))
    (x : List ℚ) : Except Err ℚ := do
  let current := o.update_values base_values x
  let res ← o.engine.compute current
  let value ← getKeyOutput res "J204"
  let penalty ←
    if soft then do
      let pv ← o.constraint_violations current
      pure ((pv.1.map (fun kv => 1000 * kv.2 ^ 2)).foldl (· + ·) 0)
    else pure 0
  .ok (value + penalty)

/-- The best-feasible tracking state threaded through the callback:
`best_values`, `best_obj` and `best_iter` bundled (absent while
`best_values is None` and `best_obj` is infinite), plus the history. -/
structure CBState where
  best : Option (List (String × ℚ) × ℚ × Nat)
  history : List IterationRecord
  deriving Repr

/-- The `outputs` dict of an iteration record: every key output plus
`J76` and `J77` from the full mapping. -/
def recordOutputs (res : ComputeResult) : Except Err (List (String × ℚ)) := do
  let keys ← KEY_OUTPUTS.mapM (fun k => do
    let v ← getKeyOutput res k
    pure (k, v))
  let j76 ← lookupOrKeyError res.values "J76"
  let j77 ← lookupOrKeyError res.values "J77"
  pure (keys ++ [("J76", j76), ("J77", j77)])

/-- The `variables` dict of an iteration record:
`{var: current[var] for var in self.variables}`. -/
def recordVars (o : Optimizer) (current : List (String × ℚ)) :
    Except Err (List (String × ℚ)) :=
  o.«variables».mapM (fun var => do
    let v ← lookupOrKeyError current var
    pure (var, v))

/-- The `callback` closure of `_run_optimization`: recompute at the
iterate, score the constraints, append the iteration record, and track
the best feasible point by minimum `J204`. -/
def Optimizer.callback (o : Optimizer) (tol : ℚ) (base_values : List (String × ℚ))
    (st : CBState) (x : List ℚ) : Except Err CBState := do
  let current := o.update_values base_values x
  let res ← o.engine.compute current
  let pv ← o.constraint_violations current
  let violations := pv.1
  let mv := max_violation violations
  let vars ← recordVars o current
  let obj ← getKeyOutput res "J204"
  let outs ← recordOutputs res
  let record : IterationRecord := ⟨st.history.length + 1, vars, obj, outs, violations⟩
  let history2 := st.history ++ [record]
  if mv ≤ tol then
    let j204 ← getKeyOutput res "J204"
    match st.best with
    | none => .ok ⟨some (current, j204, history2.length), history2⟩
    | some b =>
      if j204 < b.2.1 then .ok ⟨some (current, j204, history2.length), history2⟩
      else .ok ⟨some b, history2⟩
  else .ok ⟨st.best, history2⟩

/-- The modelled `minimize` loop: per solver iterate, evaluate the
objective, then invoke the callback. -/
def runCallbacks (o : Optimizer) (soft : Bool) (tol : ℚ) (base_values : List (String × ℚ)) :
    List (List ℚ) → CBState → Except Err CBState
  | [], st => .ok st
  | x :: rest, st => do
    let _ ← o.objectiveFn soft base_values x
    let st2 ← o.callback tol base_values st x
    runCallbacks o soft tol base_values rest st2

/-- `Optimizer._run_optimization`: build bounds and constraints, run the
bounded minimization (abstracted by `run`), evaluate the solver's final
iterate, prefer the tracked best feasible point when it has a strictly
lower objective, and report success as `chosen max violation ≤ mode
tolerance`. -/
def Optimizer.run_optimization (o : Optimizer) (initial : List ℚ)
    (base_values : List (String × ℚ)) (history0 : List IterationRecord) (soft : Bool)
    (run : SolverRun) : Except Err OptimizationResult := do
  let _bounds ← o.build_bounds base_values
  let _constraints := o.build_constraints soft
  let tol : ℚ := if soft then 5 / 100 else 1 / 10000
  let st ← runCallbacks o soft tol base_values run.traj ⟨none, history0⟩
  let final_values := o.update_values base_values run.finalX
  let fv ← o.constraint_violations final_values
  let final_mv := max_violation fv.1
  let fres ← o.engine.compute final_values
  let final_obj ← getKeyOutput fres "J204"
  let chosen ←
    match st.best with
    | some b => do
      let bb ← o.constraint_violations b.1
      let best_mv := max_violation bb.1
      if best_mv ≤ tol ∧ b.2.1 < final_obj then
        pure (b.1, bb.2, b.2.1, best_mv,
          " (лучшее допустимое: итерация " ++ toString b.2.2 ++ ")")
      else pure (final_values, fv.2, final_obj, final_mv, "")
    | none => pure (final_values, fv.2, final_obj, final_mv, "")
  let success := if soft then decide (chosen.2.2.2.1 ≤ 5 / 100)
    else decide (chosen.2.2.2.1 ≤ 1 / 10000)
  .ok ⟨success, run.message ++ chosen.2.2.2.2, chosen.1, chosen.2.2.1, chosen.2.1,
    ⟨st.history⟩, if soft then "soft" else "strict"⟩

/-- `Optimizer.optimize`: read the starting point for the 4 variables,
run strict mode with a fresh history; on its reported success return it
(stage `strict`), otherwise run soft mode with another fresh history and
return that result (stage `soft`). -/
def Optimizer.optimize (o : Optimizer) (strictRun softRun : SolverRun)
    (values : List (String × ℚ)) : Except Err OptimizationResult := do
  let initial ← o.«variables».mapM (fun var => lookupOrKeyError values var)
  let strict_result ← o.run_optimization initial values [] false strictRun
  if strict_result.success then
    .ok { strict_result with stage := "strict" }
  else do
    let soft_result ← o.run_optimization initial values [] true softRun
    .ok { soft_result with stage := "soft" }

/-- The relative-violation formula as the spec states it: `le` is
`max(0, (lhs − rhs) / max(|rhs|, ε))`, `ge` is
`max(0, (rhs − lhs) / max(|lhs|, ε))`, `eq` is
`|lhs − rhs| / max(|rhs|, ε)`, with `ε = 1e-6`.  Written from the
spec's words, to be compared against the source's
`constraint_violation`. -/
def violationSpec (ctype : String) (lhs rhs : ℚ) : ℚ :=
  let eps : ℚ := 1 / 1000000
  if ctype = "le" then max 0 ((lhs - rhs) / max |rhs| eps)
  else if ctype = "ge" then max 0 ((rhs - lhs) / max |lhs| eps)
  else |lhs - rhs| / max |rhs| eps

/-- C4: for the three constraint kinds the violation computed by the
optimizer equals the spec's formula, and a `le` constraint with equal
sides scores exactly 0. -/
theorem constraint_violation_matches_spec (ctype : String) (lhs rhs : ℚ)
    (h : ctype = "le" ∨ ctype = "ge" ∨ ctype = "eq") :
    constraint_violation ctype lhs rhs = violationSpec ctype lhs rhs ∧
    (lhs = rhs → constraint_violation "le" lhs rhs = 0) := by
  constructor
  · rfl
  · intro he
    subst he
    simp [constraint_violation]

/-- C4 witness: the `le` formula evaluated at `lhs = rhs = 3`. -/
theorem constraint_violation_matches_spec_witness :
    (("le" : String) = "le" ∨ ("le" : String) = "ge" ∨ ("le" : String) = "eq") ∧
    (constraint_violation "le" 3 3 = violationSpec "le" 3 3 ∧
     ((3 : ℚ) = 3 → constraint_violation "le" 3 3 = 0)) :=
  ⟨Or.inl rfl, constraint_violation_matches_spec "le" 3 3 (Or.inl rfl)⟩

/-- The four-tier resolution chain as the spec states it: literal
number, live mapping, computed mapping, schema defaults, otherwise the
unresolved-reference failure on the normalized key.  Written from the
spec's words, to be compared against `Optimizer._resolve_value`. -/
def resolveSpec (expr : String) (values computedVals defaults : List (String × ℚ)) :
    Except Err ℚ :=
  match pyFloatParse expr with
  | some q => .ok q
  | none =>
    let key := normalize_cell expr
    match List.lookup key values with
    | some v => .ok v
    | none =>
      match List.lookup key computedVals with
      | some v => .ok v
      | none =>
        match List.lookup key defaults with
        | some v => .ok v
        | none => .error (.keyError key)

/-- C5: `_resolve_value` follows exactly the four-tier order — literal,
live mapping, freshly computed mapping, schema defaults — and fails
with the unresolved-reference error (the source's `KeyError` on the
normalized key) precisely when all four tiers miss. -/
theorem resolve_value_four_tier (o : Optimizer) (expr : String)
    (values : List (String × ℚ)) (res : ComputeResult)
    (h : o.engine.compute values = .ok res) :
    o.resolve_value expr values none =
      resolveSpec expr values res.values o.engine.default_values ∧
    (o.resolve_value expr values none = .error (.keyError (normalize_cell expr)) ↔
      pyFloatParse expr = none ∧
      List.lookup (normalize_cell expr) values = none ∧
      List.lookup (normalize_cell expr) res.values = none ∧
      List.lookup (normalize_cell expr) o.engine.default_values = none) := by
  have h1 : o.resolve_value expr values none =
      resolveSpec expr values res.values o.engine.default_values := by
    rw [Optimizer.resolve_value, resolveSpec]
    rcases hp : pyFloatParse expr with _ | q
    · simp only
      rcases hv : List.lookup (normalize_cell expr) values with _ | v
      · simp only [bind, Except.bind, h, pure, Except.pure]
      · simp only
    · simp only
  refine ⟨h1, ?_⟩
  rw [h1, resolveSpec]
  constructor
  · intro he
    rcases hp : pyFloatParse expr with _ | q
    · rcases hv : List.lookup (normalize_cell expr) values with _ | v
      · rcases hc : List.lookup (normalize_cell expr) res.values with _ | v
        · rcases hd : List.lookup (normalize_cell expr) o.engine.default_values with _ | v
          · exact ⟨rfl, rfl, rfl, rfl⟩
          · simp [hp, hv, hc, hd] at he
        · simp [hp, hv, hc] at he
      · simp [hp, hv] at he
    · simp [hp] at he
  · rintro ⟨hp, hv, hc, hd⟩
    simp [hp, hv, hc, hd]

/-! ### Concrete instances used by the witness theorems -/

/-- Decidable equality on results, for evaluating concrete runs. -/
instance {ε α : Type} [DecidableEq ε] [DecidableEq α] : DecidableEq (Except ε α) := fun a b =>
  match a, b with
  | .ok x, .ok y =>
    if h : x = y then .isTrue (by rw [h]) else .isFalse (fun hh => h (by cases hh; rfl))
  | .error x, .error y =>
    if h : x = y then .isTrue (by rw [h]) else .isFalse (fun hh => h (by cases hh; rfl))
  | .ok _, .error _ => .isFalse (fun hh => by cases hh)
  | .error _, .ok _ => .isFalse (fun hh => by cases hh)

/-- Extract a compute result from a successful call (total helper). -/
def getComputeResult (e : Except Err ComputeResult) (d : ComputeResult) : ComputeResult :=
  match e with
  | .ok x => x
  | .error _ => d

/-- Extract an optimization result from a successful call (total
helper). -/
def getOptResult (e : Except Err OptimizationResult) (d : OptimizationResult) :
    OptimizationResult :=
  match e with
  | .ok x => x
  | .error _ => d

/-- The empty placeholder optimization result for `getOptResult`. -/
def emptyOptResult : OptimizationResult := ⟨false, "", [], 0, [], ⟨[]⟩, ""⟩

/-- A small but complete schema exercising the optimizer: all four
decision variables with their eight bound cells, every key-output cell
and `J76`/`J77` as inputs, a single formula `J204 = A1 + C7`, no
constraints, and — deliberately — solver objective address `A1`, which
is not the cell the optimizer's code reads. -/
def exSchema : Schema :=
  { inputs := [
      ⟨"C7", "c7", 1, "", ""⟩, ⟨"J7", "j7", 1, "", ""⟩, ⟨"C9", "c9", 1, "", ""⟩,
      ⟨"J94", "j94", 1, "", ""⟩,
      ⟨"E195", "", 0, "", ""⟩, ⟨"E197", "", 10, "", ""⟩, ⟨"J191", "", 0, "", ""⟩,
      ⟨"J193", "", 10, "", ""⟩, ⟨"E191", "", 0, "", ""⟩, ⟨"E193", "", 10, "", ""⟩,
      ⟨"J195", "", 0, "", ""⟩, ⟨"J197", "", 10, "", ""⟩,
      ⟨"J122", "", 1, "", ""⟩, ⟨"J132", "", 1, "", ""⟩, ⟨"L141", "", 1, "", ""⟩,
      ⟨"J169", "", 1, "", ""⟩, ⟨"T168", "", 1, "", ""⟩, ⟨"T178", "", 1, "", ""⟩,
      ⟨"J76", "", 1, "", ""⟩, ⟨"J77", "", 1, "", ""⟩,
      ⟨"A1", "", 5, "", ""⟩]
    formulas := [⟨"J204", "=A1+C7", .add (.cellRef "A1") (.cellRef "C7")⟩]
    solver := ⟨"A1", ["C7", "J7", "C9", "J94"], []⟩
    version := "1" }

/-- The engine built from `exSchema`. -/
def exEngine : ComputeEngine :=
  getEngine (ComputeEngine.make exSchema) ⟨exSchema, [], [], []⟩

/-- The optimizer over `exSchema`. -/
def exOpt : Optimizer := Optimizer.make exSchema exEngine

/-- The starting mapping: the schema defaults. -/
def exValues : List (String × ℚ) := exEngine.default_values

/-- A solver run visiting one iterate and finishing at the start. -/
def exRun : SolverRun := ⟨[[1, 1, 1, 1]], [1, 1, 1, 1], "Optimization terminated successfully"⟩

/-- The computed mapping at `exValues`. -/
def exCompRes : ComputeResult :=
  getComputeResult (exEngine.compute exValues) ⟨[], [], []⟩

/-- C5 witness: resolving the expression `"J204"` over `exOpt` — not a
literal, not a live value, found in the freshly computed mapping
(tier 3) with value 6. -/
theorem resolve_value_four_tier_witness :
    exOpt.engine.compute exValues = .ok exCompRes ∧
    exOpt.resolve_value "J204" exValues none = .ok 6 ∧
    (exOpt.resolve_value "J204" exValues none =
        resolveSpec "J204" exValues exCompRes.values exOpt.engine.default_values ∧
     (exOpt.resolve_value "J204" exValues none =
          .error (.keyError (normalize_cell "J204")) ↔
        pyFloatParse "J204" = none ∧
        List.lookup (normalize_cell "J204") exValues = none ∧
        List.lookup (normalize_cell "J204") exCompRes.values = none ∧
        List.lookup (normalize_cell "J204") exOpt.engine.default_values = none)) :=
  ⟨rfl, by with_unfolding_all decide, resolve_value_four_tier exOpt "J204" exValues exCompRes rfl⟩

/-- Invariant of the best-feasible tracking state: whenever a best
point is held, its objective is exactly the `J204` value of a fresh
compute at that point. -/
def BestInv (o : Optimizer) (best : Option (List (String × ℚ) × ℚ × Nat)) : Prop :=
  match best with
  | none => True
  | some b => ∃ res, o.engine.compute b.1 = .ok res ∧ getKeyOutput res "J204" = .ok b.2.1

lemma callback_shape (o : Optimizer) (tol : ℚ) (base : List (String × ℚ)) (st : CBState)
    (x : List ℚ) (st2 : CBState) (h : o.callback tol base st x = .ok st2) :
    (BestInv o st.best → BestInv o st2.best) ∧
    ∃ rec : IterationRecord, st2.history = st.history ++ [rec] ∧
      ∃ res, o.engine.compute (o.update_values base x) = .ok res ∧
        getKeyOutput res "J204" = .ok rec.objective := by
  rw [Optimizer.callback] at h
  simp only [bind, Except.bind] at h
  rcases h1 : o.engine.compute (o.update_values base x) with e1 | res
  · simp only [h1] at h
    cases h
  · simp only [h1] at h
    rcases h2 : o.constraint_violations (o.update_values base x) with e2 | pv
    · simp only [h2] at h
      cases h
    · simp only [h2] at h
      rcases h3 : recordVars o (o.update_values base x) with e3 | vars
      · simp only [h3] at h
        cases h
      · simp only [h3] at h
        rcases h4 : getKeyOutput res "J204" with e4 | obj
        · simp only [h4] at h
          cases h
        · simp only [h4] at h
          rcases h5 : recordOutputs res with e5 | outs
          · simp only [h5] at h
            cases h
          · simp only [h5] at h
            by_cases hmv : max_violation pv.1 ≤ tol
            · rw [if_pos hmv] at h
              rcases hb : st.best with _ | b
              · rw [hb] at h
                simp only at h
                cases h
                refine ⟨fun _ => ⟨res, h1, h4⟩, ?_⟩
                exact ⟨_, rfl, res, rfl, h4⟩
              · rw [hb] at h
                simp only at h
                by_cases hlt : obj < b.2.1
                · rw [if_pos hlt] at h
                  cases h
                  refine ⟨fun _ => ⟨res, h1, h4⟩, ?_⟩
                  exact ⟨_, rfl, res, rfl, h4⟩
                · rw [if_neg hlt] at h
                  cases h
                  refine ⟨fun hi => hi, ?_⟩
                  exact ⟨_, rfl, res, rfl, h4⟩
            · rw [if_neg hmv] at h
              cases h
              refine ⟨fun hi => hi, ?_⟩
              exact ⟨_, rfl, res, rfl, h4⟩

lemma runCallbacks_best_inv (o : Optimizer) (soft : Bool) (tol : ℚ)
    (base : List (String × ℚ)) :
    ∀ (traj : List (List ℚ)) (st st2 : CBState),
    runCallbacks o soft tol base traj st = .ok st2 →
    BestInv o st.best → BestInv o st2.best := by
  intro traj
  induction traj with
  | nil =>
    intro st st2 h hi
    rw [runCallbacks] at h
    cases h
    exact hi
  | cons x rest ih =>
    intro st st2 h hi
    rw [runCallbacks] at h
    simp only [bind, Except.bind] at h
    rcases h1 : o.objectiveFn soft base x with e1 | q
    · rw [h1] at h
      cases h
    · rw [h1] at h
      rcases h2 : o.callback tol base st x with e2 | stm
      · rw [h2] at h
        cases h
      · rw [h2] at h
        exact ih stm st2 h ((callback_shape o tol base st x stm h2).1 hi)

lemma run_optimization_objective (o : Optimizer) (initial : List ℚ)
    (base : List (String × ℚ)) (h0 : List IterationRecord) (soft : Bool) (run : SolverRun)
    (r : OptimizationResult) (h : o.run_optimization initial base h0 soft run = .ok r) :
    ∃ res, o.engine.compute r.values = .ok res ∧ getKeyOutput res "J204" = .ok r.objective := by
  rw [Optimizer.run_optimization] at h
  simp only [bind, Except.bind] at h
  rcases h1 : o.build_bounds base with e1 | bounds
  · simp only [h1] at h
    cases h
  · simp only [h1] at h
    rcases h2 : runCallbacks o soft (if soft then 5 / 100 else 1 / 10000) base run.traj
        ⟨none, h0⟩ with e2 | st
    · simp only [h2] at h
      cases h
    · simp only [h2] at h
      have hbi : BestInv o st.best :=
        runCallbacks_best_inv o soft _ base run.traj ⟨none, h0⟩ st h2 trivial
      rcases h3 : o.constraint_violations (o.update_values base run.finalX) with e3 | fv
      · simp only [h3] at h
        cases h
      · simp only [h3] at h
        rcases h4 : o.engine.compute (o.update_values base run.finalX) with e4 | fres
        · simp only [h4] at h
          cases h
        · simp only [h4] at h
          rcases h5 : getKeyOutput fres "J204" with e5 | final_obj
          · simp only [h5] at h
            cases h
          · simp only [h5] at h
            rcases hb : st.best with _ | b
            · simp only [hb] at h
              cases h
              exact ⟨fres, h4, h5⟩
            · simp only [hb] at h
              rcases h6 : o.constraint_violations b.1 with e6 | bb
              · simp only [h6] at h
                cases h
              · simp only [h6] at h
                by_cases hcond : max_violation bb.1 ≤ (if soft then (5 : ℚ) / 100 else 1 / 10000)
                    ∧ b.2.1 < final_obj
                · rw [if_pos hcond] at h
                  cases h
                  rw [hb] at hbi
                  rcases hbi with ⟨res, hres, hkey⟩
                  exact ⟨res, hres, hkey⟩
                · rw [if_neg hcond] at h
                  cases h
                  exact ⟨fres, h4, h5⟩

/-- The optimization result of `exOpt` on `exRun` and `exValues`. -/
def exResult : OptimizationResult :=
  getOptResult (exOpt.optimize exRun exRun exValues) emptyOptResult

/-- The recompute at the returned mapping of `exResult`. -/
def exRecompute : ComputeResult :=
  getComputeResult (exEngine.compute exResult.values) ⟨[], [], []⟩

/-- C3 counterexample: `exSchema` declares solver objective address
`A1`, yet the optimizer reports objective 6 — the value of cell `J204`
— while the freshly computed value of cell `A1` at the returned mapping
is 5.  The iteration record's objective is likewise 6.  The optimizer
reads the hard-coded key `"J204"` and never consults
`schema.solver.objective`. -/
theorem optimizer_objective_counterexample :
    exOpt.schema.solver.objective = "A1" ∧
    exOpt.optimize exRun exRun exValues = .ok exResult ∧
    exResult.objective = 6 ∧
    (exResult.history.records.map (fun rec => rec.objective)) = [6] ∧
    exEngine.compute exResult.values = .ok exRecompute ∧
    List.lookup "A1" exRecompute.values = some 5 ∧
    (6 : ℚ) ≠ 5 := by
  refine ⟨rfl, by with_unfolding_all rfl, by with_unfolding_all decide,
    by with_unfolding_all decide, by with_unfolding_all rfl,
    by with_unfolding_all decide, by norm_num⟩

/-- C3 amended: the objective value the optimizer minimizes (the strict
objective closure) and records in each iteration record is the value of
the hard-coded cell `J204` taken from the freshly computed mapping at
the candidate point; the schema's solver objective address plays no
role.  It coincides with the claim only when that address is `J204`. -/
theorem optimizer_objective_is_J204 (o : Optimizer) (base : List (String × ℚ)) (x : List ℚ)
    (res : ComputeResult) (v : ℚ) (tol : ℚ) (st st2 : CBState)
    (hc : o.engine.compute (o.update_values base x) = .ok res)
    (hk : getKeyOutput res "J204" = .ok v)
    (hcb : o.callback tol base st x = .ok st2) :
    o.objectiveFn false base x = .ok v ∧
    ∃ rec, st2.history = st.history ++ [rec] ∧ rec.objective = v := by
  constructor
  · rw [Optimizer.objectiveFn]
    simp only [bind, Except.bind, hc, hk, pure, Except.pure, Bool.false_eq_true, if_false]
    rw [add_zero]
  · rcases (callback_shape o tol base st x st2 hcb).2 with ⟨rec, hh, res2, hres2, hkey2⟩
    refine ⟨rec, hh, ?_⟩
    rw [hc] at hres2
    cases hres2
    rw [hk] at hkey2
    injection hkey2 with h7
    exact h7.symm

/-- The compute result at the candidate point `[1, 1, 1, 1]` of
`exOpt`. -/
def exCompAt1 : ComputeResult :=
  getComputeResult (exEngine.compute (exOpt.update_values exValues [1, 1, 1, 1])) ⟨[], [], []⟩

/-- The callback state after one iterate of `exOpt`. -/
def exCBState : CBState :=
  match exOpt.callback (1 / 10000) exValues ⟨none, []⟩ [1, 1, 1, 1] with
  | .ok st => st
  | .error _ => ⟨none, []⟩

/-- C3 amended witness: at `exOpt`'s candidate point the strict
objective closure returns 6 — the computed `J204` — and the iteration
record appended by the callback carries the same value. -/
theorem optimizer_objective_is_J204_witness :
    exEngine.compute (exOpt.update_values exValues [1, 1, 1, 1]) = .ok exCompAt1 ∧
    getKeyOutput exCompAt1 "J204" = .ok 6 ∧
    exOpt.callback (1 / 10000) exValues ⟨none, []⟩ [1, 1, 1, 1] = .ok exCBState ∧
    (exOpt.objectiveFn false exValues [1, 1, 1, 1] = .ok 6 ∧
     ∃ rec, exCBState.history = ([] : List IterationRecord) ++ [rec] ∧ rec.objective = 6) :=
  ⟨rfl, by with_unfolding_all decide, by with_unfolding_all rfl,
    optimizer_objective_is_J204 exOpt exValues [1, 1, 1, 1] exCompAt1 6 (1 / 10000)
      ⟨none, []⟩ exCBState rfl (by with_unfolding_all decide) (by with_unfolding_all rfl)⟩

/-- C6: after any `optimize` call that returns with `success = true`,
re-running `compute` on the returned mapping reproduces the returned
objective exactly at the optimizer's objective cell `J204` — the cached
objective never drifts from an independent recompute. -/
theorem optimize_objective_no_drift (o : Optimizer) (strictRun softRun : SolverRun)
    (values : List (String × ℚ)) (r : OptimizationResult)
    (h : o.optimize strictRun softRun values = .ok r) (_hs : r.success = true) :
    ∃ res, o.engine.compute r.values = .ok res ∧ getKeyOutput res "J204" = .ok r.objective := by
  rw [Optimizer.optimize] at h
  simp only [bind, Except.bind] at h
  rcases h1 : o.«variables».mapM (fun var => lookupOrKeyError values var) with e1 | initial
  · simp only [h1] at h
    cases h
  · simp only [h1] at h
    rcases h2 : o.run_optimization initial values [] false strictRun with e2 | sr
    · simp only [h2] at h
      cases h
    · simp only [h2] at h
      by_cases hsucc : sr.success = true
      · rw [if_pos hsucc] at h
        cases h
        rcases run_optimization_objective o initial values [] false strictRun sr h2 with
          ⟨res, hres, hkey⟩
        exact ⟨res, hres, hkey⟩
      · rw [if_neg hsucc] at h
        rcases h3 : o.run_optimization initial values [] true softRun with e3 | fr
        · simp only [h3] at h
          cases h
        · simp only [h3] at h
          cases h
          rcases run_optimization_objective o initial values [] true softRun fr h3 with
            ⟨res, hres, hkey⟩
          exact ⟨res, hres, hkey⟩

/-- C6 witness: the concrete successful run of `exOpt` reports
objective 6, and recomputing at the returned mapping reproduces it. -/
theorem optimize_objective_no_drift_witness :
    exOpt.optimize exRun exRun exValues = .ok exResult ∧
    exResult.success = true ∧
    ∃ res, exEngine.compute exResult.values = .ok res ∧
      getKeyOutput res "J204" = .ok exResult.objective :=
  ⟨by with_unfolding_all rfl, by with_unfolding_all decide,
    optimize_objective_no_drift exOpt exRun exRun exValues exResult
      (by with_unfolding_all rfl) (by with_unfolding_all decide)⟩

/-- C10: when the strict-mode run does not report success, `optimize`
returns the soft-mode result, whose history object is the one the soft
run built starting from a fresh empty record list — it contains exactly
the records appended during the soft-mode run, and the strict-mode run's
history object (carried inside the strict result) is never merged into
it. -/
theorem soft_history_fresh (o : Optimizer) (strictRun softRun : SolverRun)
    (values : List (String × ℚ)) (initial : List ℚ) (sr r : OptimizationResult)
    (hinit : o.«variables».mapM (fun var => lookupOrKeyError values var) = .ok initial)
    (hsr : o.run_optimization initial values [] false strictRun = .ok sr)
    (hfail : sr.success = false)
    (h : o.optimize strictRun softRun values = .ok r) :
    ∃ fr, o.run_optimization initial values [] true softRun = .ok fr ∧
      r = { fr with stage := "soft" } ∧ r.history = fr.history := by
  rw [Optimizer.optimize] at h
  simp only [bind, Except.bind, hinit, hsr] at h
  rw [if_neg (by simp [hfail])] at h
  rcases h3 : o.run_optimization initial values [] true softRun with e3 | fr
  · simp only [h3] at h
    cases h
  · simp only [h3] at h
    cases h
    exact ⟨fr, rfl, rfl, rfl⟩

/-- A variant of `exSchema` with one badly violated constraint
(`J204 ≤ 0` while `J204` computes to 6), so the strict-mode run cannot
report success. -/
def exSchemaC : Schema :=
  { exSchema with solver := ⟨"J204", ["C7", "J7", "C9", "J94"], [⟨"le", "J204", "0"⟩]⟩ }

/-- The engine over `exSchemaC`. -/
def exEngineC : ComputeEngine :=
  getEngine (ComputeEngine.make exSchemaC) ⟨exSchemaC, [], [], []⟩

/-- The optimizer over `exSchemaC`. -/
def exOptC : Optimizer := Optimizer.make exSchemaC exEngineC

/-- The starting mapping for `exOptC`. -/
def exValuesC : List (String × ℚ) := exEngineC.default_values

/-- The strict-mode result of `exOptC` (not successful). -/
def exStrictRes : OptimizationResult :=
  getOptResult (exOptC.run_optimization [1, 1, 1, 1] exValuesC [] false exRun) emptyOptResult

/-- The overall optimize result of `exOptC` (soft stage). -/
def exResultC : OptimizationResult :=
  getOptResult (exOptC.optimize exRun exRun exValuesC) emptyOptResult

/-- C10 witness: on `exOptC` the strict run fails, and the returned
result is the soft run's result whose history is the soft run's own
(started from an empty record list). -/
theorem soft_history_fresh_witness :
    exOptC.«variables».mapM (fun var => lookupOrKeyError exValuesC var) = .ok [1, 1, 1, 1] ∧
    exOptC.run_optimization [1, 1, 1, 1] exValuesC [] false exRun = .ok exStrictRes ∧
    exStrictRes.success = false ∧
    exOptC.optimize exRun exRun exValuesC = .ok exResultC ∧
    ∃ fr, exOptC.run_optimization [1, 1, 1, 1] exValuesC [] true exRun = .ok fr ∧
      exResultC = { fr with stage := "soft" } ∧ exResultC.history = fr.history :=
  ⟨by with_unfolding_all rfl, by with_unfolding_all rfl, by with_unfolding_all decide,
    by with_unfolding_all rfl,
    soft_history_fresh exOptC exRun exRun exValuesC [1, 1, 1, 1] exStrictRes exResultC
      (by with_unfolding_all rfl) (by with_unfolding_all rfl)
      (by with_unfolding_all decide) (by with_unfolding_all rfl)⟩

end Calc
